import Mathlib

/-!
# Redacted JSON merge-patch helpers

A shallow embedding of `pkg/operator/resource/resourceapply/json_patch_helpers.go`:
the three entry points `JSONPatchNoError`, `JSONPatchSecretNoError` and
`JSONPatchRouteNoError`, followed by theorems about them.

Conventions of the embedding.

* A Go `string` and a Go `[]byte` are both modelled by their content, a Lean `String`;
  the conversions `[]byte("OLD")` and `string(patchBytes)` are the identity on content.
  A nil slice and an empty slice have the same content, which is also how
  `equality.Semantic.DeepEqual` compares them.
* A Go `error` is modelled by its message (what `%v` prints), and a Go call returning
  `(value, error)` by a function into `Except String _`.
* A nilable Go reference (`runtime.Object`, `*corev1.Secret`, `*routev1.Route`,
  `*routev1.TLSConfig`) is an `Option`.
* A Go `map[string][]byte` is a finite map (`Finmap`); `for s := range m` is a fold over
  its entries in an unspecified order, which `Finmap.foldl` accepts only together with a
  proof that the loop body commutes with itself.
* `runtime.Encode(unstructured.UnstructuredJSONScheme, _)` and `patch.CreateMergePatch`
  are external to the repository and are taken as parameters `Encode`, `CreateMergePatch`.
* The functions are embedded twice: over values (`JSONPatchSecretNoError`,
  `JSONPatchRouteNoError`), and over a memory of objects reached through references
  (`JSONPatchSecretNoError.onHeap`, `JSONPatchRouteNoError.onHeap`), where aliasing and
  mutation of the caller's objects can be expressed. The two agree on the returned string
  (`JSONPatchSecretNoError.onHeap_result`, `JSONPatchRouteNoError.onHeap_route_result`).
-/

namespace resourceapply

/-! ## Data model -/

/-- Content of a Go byte slice or Go string. -/
abbrev Bytes := String

/-- Go `map[string][]byte`, the type of `Secret.Data`. -/
abbrev DataMap := Finmap (fun _ : String => Bytes)

/-- Go index expression `m[s]`: the stored value, or the zero value (a nil slice, whose
content is empty) when `s` is not a key. -/
def DataMap.index (m : DataMap) (s : String) : Bytes :=
  (m.lookup s).getD ""

/-- Go comma-ok index expression `_, ok := m[s]`: the `ok` result. -/
def DataMap.has (m : DataMap) (s : String) : Bool :=
  (m.lookup s).isSome

/-- Go assignment `m[s] = b`. -/
def DataMap.set (m : DataMap) (s : String) (b : Bytes) : DataMap :=
  m.insert s b

/-- The call `equality.Semantic.DeepEqual(a, b)` on two byte slices: equality of content. -/
def DeepEqual (a b : Bytes) : Bool :=
  decide (a = b)

/-- Modelled from the spec: the declaration of `corev1.Secret` (package `k8s.io/api/core/v1`)
is not part of the source; per the spec a secret is "an object with a named-byte-blob mapping
field". `Data` is that field; `ObjectMeta` carries the type and object metadata (opaque, of any
type `μ`), `StringData` and `Type_` are the remaining payload fields of the Kubernetes type. -/
structure Secret (μ : Type) where
  ObjectMeta : μ
  Data : DataMap
  StringData : Finmap (fun _ : String => String)
  Type_ : String

/-- Generated `(*Secret).DeepCopy`: a fresh object with the same content. -/
def Secret.DeepCopy {μ : Type} (s : Secret μ) : Secret μ :=
  { ObjectMeta := s.ObjectMeta, Data := s.Data, StringData := s.StringData, Type_ := s.Type_ }

/-- Modelled from the spec: the declaration of `routev1.TLSConfig` (package
`github.com/openshift/api/route/v1`) is not part of the source; per the spec it is the
"transport-security sub-structure carrying one sensitive scalar", here `Key`. The other
fields are the certificate material and policies of the OpenShift type. -/
structure TLSConfig where
  Termination : String
  Certificate : String
  Key : String
  CACertificate : String
  DestinationCACertificate : String
  InsecureEdgeTerminationPolicy : String
deriving DecidableEq

/-- Modelled from the spec: `routev1.RouteSpec`, of which the source only touches the
optional `TLS` sub-structure; every other field is carried opaque in `other`. -/
structure RouteSpec (σ : Type) where
  other : σ
  TLS : Option TLSConfig

/-- Modelled from the spec: `routev1.Route`, "an object with an optional transport-security
sub-structure"; metadata and status are carried opaque in `ObjectMeta`. -/
structure Route (μ σ : Type) where
  ObjectMeta : μ
  Spec : RouteSpec σ

/-- Generated `(*Route).DeepCopy`: a fresh object with the same content. -/
def Route.DeepCopy {μ σ : Type} (r : Route μ σ) : Route μ σ :=
  { ObjectMeta := r.ObjectMeta, Spec := { other := r.Spec.other, TLS := r.Spec.TLS } }

/-! ## Constants -/

def tlsKeyModifiedMessage : String := "TLS_KEY_MODIFIED"

def tlsKeyMaskedMessage : String := "TLS_KEY_MASKED"

/-! ## `JSONPatchNoError` -/

/-- Source lines 24-44. `K` is the dynamic type behind the `runtime.Object` interface. -/
def JSONPatchNoError {K : Type} (Encode : K → Except String Bytes)
    (CreateMergePatch : Bytes → Bytes → Except String Bytes)
    (original modified : Option K) : String :=
  match original with
  | none => "original object is nil"
  | some original =>
    match modified with
    | none => "modified object is nil"
    | some modified =>
      match Encode original with
      | .error err => "unable to decode original to JSON: " ++ err
      | .ok originalJSON =>
        match Encode modified with
        | .error err => "unable to decode modified to JSON: " ++ err
        | .ok modifiedJSON =>
          match CreateMergePatch originalJSON modifiedJSON with
          | .error err => "unable to create JSON patch: " ++ err
          | .ok patchBytes => patchBytes

/-! ## `JSONPatchSecretNoError` -/

/-- The four variables of `JSONPatchSecretNoError` that hold objects: the two arguments and
the two deep copies. Every assignment of the function body is an update of this record. -/
structure SecretVars (μ : Type) where
  original : Secret μ
  modified : Secret μ
  safeModified : Secret μ
  safeOriginal : Secret μ

/-- Source line 63, the body of `for s := range safeOriginal.Data`. -/
def maskOriginalStep {μ : Type} (v : SecretVars μ) (s : String) (_ : Bytes) : SecretVars μ :=
  { v with safeOriginal := { v.safeOriginal with Data := v.safeOriginal.Data.set s "OLD" } }

/-- Source lines 66-72, the body of `for s := range safeModified.Data`. -/
def maskModifiedStep {μ : Type} (v : SecretVars μ) (s : String) (_ : Bytes) : SecretVars μ :=
  if !(v.original.Data.has s) then
    { v with safeModified := { v.safeModified with Data := v.safeModified.Data.set s "NEW" } }
  else if !(DeepEqual (v.original.Data.index s) (v.safeModified.Data.index s)) then
    { v with safeModified := { v.safeModified with Data := v.safeModified.Data.set s "MODIFIED" } }
  else
    { v with safeModified := { v.safeModified with Data := v.safeModified.Data.set s "OLD" } }

/-- The value the second loop stores under `s`, as a function of the caller's original map
and of the current content of the modified copy's map. -/
def modifiedToken (originalData current : DataMap) (s : String) : Bytes :=
  if !(originalData.has s) then "NEW"
  else if !(DeepEqual (originalData.index s) (current.index s)) then "MODIFIED"
  else "OLD"

theorem maskModifiedStep_eq {μ : Type} (v : SecretVars μ) (s : String) (b : Bytes) :
    maskModifiedStep v s b =
      { v with safeModified := { v.safeModified with
          Data := v.safeModified.Data.insert s
            (modifiedToken v.original.Data v.safeModified.Data s) } } := by
  unfold maskModifiedStep modifiedToken DataMap.set
  split_ifs <;> rfl

theorem modifiedToken_insert_of_ne (originalData current : DataMap) {s t : String}
    (b : Bytes) (h : s ≠ t) :
    modifiedToken originalData (current.insert t b) s = modifiedToken originalData current s := by
  unfold modifiedToken DataMap.index
  rw [Finmap.lookup_insert_of_ne current h]

/-- The body of the first loop commutes with itself: the loop is independent of the order
in which Go visits the keys. -/
theorem maskOriginalStep_comm {μ : Type} (v : SecretVars μ) (a₁ : String) (b₁ : Bytes)
    (a₂ : String) (b₂ : Bytes) :
    maskOriginalStep (maskOriginalStep v a₁ b₁) a₂ b₂
      = maskOriginalStep (maskOriginalStep v a₂ b₂) a₁ b₁ := by
  by_cases h : a₁ = a₂
  · subst h; rfl
  · simp only [maskOriginalStep, DataMap.set]
    rw [Finmap.insert_insert_of_ne _ h]

/-- The body of the second loop commutes with itself. -/
theorem maskModifiedStep_comm {μ : Type} (v : SecretVars μ) (a₁ : String) (b₁ : Bytes)
    (a₂ : String) (b₂ : Bytes) :
    maskModifiedStep (maskModifiedStep v a₁ b₁) a₂ b₂
      = maskModifiedStep (maskModifiedStep v a₂ b₂) a₁ b₁ := by
  by_cases h : a₁ = a₂
  · subst h; rfl
  · simp only [maskModifiedStep_eq]
    rw [modifiedToken_insert_of_ne _ _ _ (Ne.symm h), modifiedToken_insert_of_ne _ _ _ h,
      Finmap.insert_insert_of_ne _ h]

/-- Source lines 59-73: the state of the variables when `JSONPatchNoError` is called. -/
def JSONPatchSecretNoError.vars {μ : Type} (original modified : Secret μ) : SecretVars μ :=
  let v₀ : SecretVars μ :=
    { original := original, modified := modified,
      safeModified := modified.DeepCopy, safeOriginal := original.DeepCopy }
  let v₁ := Finmap.foldl maskOriginalStep maskOriginalStep_comm v₀ v₀.safeOriginal.Data
  Finmap.foldl maskModifiedStep maskModifiedStep_comm v₁ v₁.safeModified.Data

/-- Source lines 51-76. -/
def JSONPatchSecretNoError {μ : Type} (Encode : Secret μ → Except String Bytes)
    (CreateMergePatch : Bytes → Bytes → Except String Bytes)
    (original modified : Option (Secret μ)) : String :=
  match original with
  | none => "original object is nil"
  | some original =>
    match modified with
    | none => "modified object is nil"
    | some modified =>
      let v := JSONPatchSecretNoError.vars original modified
      JSONPatchNoError Encode CreateMergePatch (some v.safeOriginal) (some v.safeModified)

/-! ## `JSONPatchRouteNoError` -/

/-- The four variables of `JSONPatchRouteNoError` that hold objects. -/
structure RouteVars (μ σ : Type) where
  original : Route μ σ
  modified : Route μ σ
  safeModified : Route μ σ
  safeOriginal : Route μ σ

/-- Assignment `r.Spec.TLS.Key = key`, where `tls` is the sub-structure `r.Spec.TLS` points
to (the source only assigns under a `!= nil` guard). -/
def Route.assignTLSKey {μ σ : Type} (r : Route μ σ) (tls : TLSConfig) (key : String) :
    Route μ σ :=
  { r with Spec := { r.Spec with TLS := some { tls with Key := key } } }

/-- Source lines 91-103: the state of the variables when `JSONPatchNoError` is called. -/
def JSONPatchRouteNoError.vars {μ σ : Type} (original modified : Route μ σ) : RouteVars μ σ :=
  let safeModified := modified.DeepCopy
  let safeOriginal := original.DeepCopy
  match safeOriginal.Spec.TLS with
  | none =>
    { original := original, modified := modified,
      safeModified := safeModified, safeOriginal := safeOriginal }
  | some originalTLS =>
    let safeModified :=
      match safeModified.Spec.TLS with
      | none => safeModified
      | some modifiedTLS =>
        if originalTLS.Key ≠ modifiedTLS.Key then
          safeModified.assignTLSKey modifiedTLS tlsKeyModifiedMessage
        else
          safeModified.assignTLSKey modifiedTLS tlsKeyMaskedMessage
    let safeOriginal := safeOriginal.assignTLSKey originalTLS tlsKeyMaskedMessage
    { original := original, modified := modified,
      safeModified := safeModified, safeOriginal := safeOriginal }

/-- Source lines 83-106. -/
def JSONPatchRouteNoError {μ σ : Type} (Encode : Route μ σ → Except String Bytes)
    (CreateMergePatch : Bytes → Bytes → Except String Bytes)
    (original modified : Option (Route μ σ)) : String :=
  match original with
  | none => "original object is nil"
  | some original =>
    match modified with
    | none => "modified object is nil"
    | some modified =>
      let v := JSONPatchRouteNoError.vars original modified
      JSONPatchNoError Encode CreateMergePatch (some v.safeOriginal) (some v.safeModified)

/-- The TLS key of a route, when the route has a TLS sub-structure. -/
def Route.tlsKey {μ σ : Type} (r : Route μ σ) : Option String :=
  r.Spec.TLS.map (fun tls => tls.Key)

/-! ## Sample objects used to instantiate the theorems -/

/-- A secret with the given `Data` and nothing else of interest. -/
def sampleSecret (data : DataMap) : Secret Unit :=
  { ObjectMeta := (), Data := data, StringData := ∅, Type_ := "Opaque" }

/-- A secret with keys `a`, `b`. -/
def sampleOriginal : Secret Unit :=
  sampleSecret ((Finmap.singleton "a" "x").insert "b" "y")

/-- A later version of `sampleOriginal`: `a` unchanged, `b` changed, `c` added. -/
def sampleModified : Secret Unit :=
  sampleSecret (((Finmap.singleton "a" "x").insert "b" "z").insert "c" "w")

/-- A TLS sub-structure with the given private key. -/
def sampleTLS (key : String) : TLSConfig :=
  { Termination := "edge", Certificate := "CERT", Key := key, CACertificate := "CA",
    DestinationCACertificate := "", InsecureEdgeTerminationPolicy := "Redirect" }

/-- A route with the given optional TLS sub-structure. -/
def sampleRoute (tls : Option TLSConfig) : Route Unit Unit :=
  { ObjectMeta := (), Spec := { other := (), TLS := tls } }

/-- An encoder that always succeeds, for instantiating theorems. -/
def sampleEncode {K : Type} (_ : K) : Except String Bytes := .ok "json"

/-- A patch engine that always succeeds, for instantiating theorems. -/
def samplePatch (_ _ : Bytes) : Except String Bytes := .ok "patch"

/-- An encoder that prints the value stored under `password`, for instantiating theorems
with an output that depends on the Data handed to it. -/
def printingEncode (s : Secret Unit) : Except String Bytes :=
  .ok ("password=" ++ s.Data.index "password")

/-- A patch engine that prints both encodings, for instantiating theorems. -/
def printingPatch (originalJSON modifiedJSON : Bytes) : Except String Bytes :=
  .ok (originalJSON ++ " -> " ++ modifiedJSON)

/-! ## Notions used to state the claims -/

/-- The string `v` occurs in the string `out` as a contiguous substring. -/
def occursIn (v out : String) : Prop :=
  v.data <:+: out.data

instance occursIn.decidable (v out : String) : Decidable (occursIn v out) :=
  inferInstanceAs (Decidable (v.data <:+: out.data))

/-- Reference definition of the non-nil case of `JSONPatchNoError`, written from the spec's
words over the two encodings and the patch engine taken as values: a failed encoding of
the original decides the result whatever the encoding of the modified is; otherwise a failed
encoding of the modified decides it; otherwise the patch engine does. -/
def JSONPatchNoError.reference (encodedOriginal encodedModified : Except String Bytes)
    (CreateMergePatch : Bytes → Bytes → Except String Bytes) : String :=
  match encodedOriginal, encodedModified with
  | .error e, _ => "unable to decode original to JSON: " ++ e
  | .ok _, .error e => "unable to decode modified to JSON: " ++ e
  | .ok originalJSON, .ok modifiedJSON =>
    match CreateMergePatch originalJSON modifiedJSON with
    | .error e => "unable to create JSON patch: " ++ e
    | .ok patchBytes => patchBytes

/-- An encoder that fails on every object, with the given cause. -/
def failingEncode {K : Type} (cause : String) (_ : K) : Except String Bytes := .error cause

/-- The string `s` begins with the string `p`. -/
def beginsWith (p s : String) : Prop :=
  p.data <+: s.data

instance beginsWith.decidable (p s : String) : Decidable (beginsWith p s) :=
  inferInstanceAs (Decidable (p.data <+: s.data))

/-- The call `JSONPatchNoError(original, modified)` ends on one of its five failure
returns (source lines 26, 29, 33, 37, 41) rather than on line 43. -/
def JSONPatchNoError.fails {K : Type} (Encode : K → Except String Bytes)
    (CreateMergePatch : Bytes → Bytes → Except String Bytes)
    (original modified : Option K) : Bool :=
  match original, modified with
  | none, _ => true
  | some _, none => true
  | some original, some modified =>
    match Encode original, Encode modified with
    | .error _, _ => true
    | .ok _, .error _ => true
    | .ok originalJSON, .ok modifiedJSON =>
      match CreateMergePatch originalJSON modifiedJSON with
      | .error _ => true
      | .ok _ => false

/-- A patch engine that fails on every input, with the given cause. -/
def failingPatch (cause : String) (_ _ : Bytes) : Except String Bytes := .error cause

/-- A patch engine that returns the empty patch for byte-identical inputs and prints the
modified encoding otherwise. -/
def comparingPatch (originalJSON modifiedJSON : Bytes) : Except String Bytes :=
  if originalJSON = modifiedJSON then .ok "\x7b\x7d" else .ok modifiedJSON

/-- The TLS sub-structure with its `Key` blanked: what remains are all fields but `Key`. -/
def TLSConfig.withoutKey (tls : TLSConfig) : TLSConfig :=
  { tls with Key := "" }

/-- The route with `Spec.TLS.Key` blanked (when there is a TLS sub-structure): two routes
have the same image exactly when they agree on every field except possibly `Spec.TLS.Key`. -/
def Route.withoutTLSKey {μ σ : Type} (r : Route μ σ) : Route μ σ :=
  { r with Spec := { r.Spec with TLS := r.Spec.TLS.map TLSConfig.withoutKey } }

/-- The fields of the optional TLS sub-structure other than `Key`: termination, certificate,
CA certificate, destination CA certificate and insecure-edge policy. -/
def Route.tlsOtherFields {μ σ : Type} (r : Route μ σ) :
    Option (String × String × String × String × String) :=
  r.Spec.TLS.map (fun tls => (tls.Termination, tls.Certificate, tls.CACertificate,
    tls.DestinationCACertificate, tls.InsecureEdgeTerminationPolicy))

/-! ## The same functions over an explicit memory

The definitions above treat objects as values. To state what happens to the caller's
objects, the definitions below run the same source lines on a memory of objects: a
`*corev1.Secret` and a `*routev1.Route` are addresses of structs, the `Data` field of a secret
holds the address of a map object (or nil), and `Spec.TLS` of a route the address of a
`TLSConfig` (or nil). Every assignment of the source is a write at the address it goes
through, so a write through an aliased reference would change the caller's object. -/

/-- An address in memory. -/
abbrev Addr := Nat

/-- A `corev1.Secret` struct in memory: `Data` is a reference to a map object, nil when
`none`. The fields the source never assigns are kept as values. -/
structure SecretObj (μ : Type) where
  ObjectMeta : μ
  Data : Option Addr
  StringData : Finmap (fun _ : String => String)
  Type_ : String

/-- Memory holding secrets and the map objects their `Data` fields refer to. Addresses
below `nextSecret` and `nextMap` are allocated; `new` and `make` take the next ones. -/
structure SecretHeap (μ : Type) where
  secrets : Addr → SecretObj μ
  maps : Addr → DataMap
  nextSecret : Addr
  nextMap : Addr

/-- The map `p.Data` refers to; a nil map reads as the empty map. -/
def SecretHeap.dataOf {μ : Type} (h : SecretHeap μ) (p : Addr) : DataMap :=
  match (h.secrets p).Data with
  | none => ∅
  | some a => h.maps a

/-- The secret at address `p` as a value: what an encoder sees when it follows `p`. -/
def SecretHeap.read {μ : Type} (h : SecretHeap μ) (p : Addr) : Secret μ :=
  { ObjectMeta := (h.secrets p).ObjectMeta, Data := h.dataOf p,
    StringData := (h.secrets p).StringData, Type_ := (h.secrets p).Type_ }

/-- Go assignment `p.Data[s] = b`: a write into the map object `p.Data` refers to. (On a
nil map Go panics; the source only assigns inside a `range` over the same map, which has no
iterations when the map is nil.) -/
def SecretHeap.assign {μ : Type} (h : SecretHeap μ) (p : Addr) (s : String) (b : Bytes) :
    SecretHeap μ :=
  match (h.secrets p).Data with
  | none => h
  | some a => { h with maps := Function.update h.maps a ((h.maps a).set s b) }

/-- Modelled from the spec: the generated `(*Secret).DeepCopy` is not part of the source; per
the spec a safe copy is "a deep copy". It allocates a new struct with the fields of `p` and,
when `p.Data` is not nil, a new map object with the same entries, to which the new struct's
`Data` refers. Returns the new memory and the address of the copy. -/
def SecretHeap.DeepCopy {μ : Type} (h : SecretHeap μ) (p : Addr) : SecretHeap μ × Addr :=
  match (h.secrets p).Data with
  | none =>
    ({ h with secrets := Function.update h.secrets h.nextSecret (h.secrets p),
              nextSecret := h.nextSecret + 1 }, h.nextSecret)
  | some a =>
    ({ secrets := Function.update h.secrets h.nextSecret
         { h.secrets p with Data := some h.nextMap },
       maps := Function.update h.maps h.nextMap (h.maps a),
       nextSecret := h.nextSecret + 1, nextMap := h.nextMap + 1 }, h.nextSecret)

/-- Source line 63 on memory, the body of `for s := range safeOriginal.Data`. -/
def maskOriginalOnHeap {μ : Type} (safeOriginal : Addr) (h : SecretHeap μ) (s : String)
    (_ : Bytes) : SecretHeap μ :=
  h.assign safeOriginal s "OLD"

/-- Source lines 66-72 on memory, the body of `for s := range safeModified.Data`. -/
def maskModifiedOnHeap {μ : Type} (original safeModified : Addr) (h : SecretHeap μ)
    (s : String) (_ : Bytes) : SecretHeap μ :=
  if !((h.dataOf original).has s) then
    h.assign safeModified s "NEW"
  else if !(DeepEqual ((h.dataOf original).index s) ((h.dataOf safeModified).index s)) then
    h.assign safeModified s "MODIFIED"
  else
    h.assign safeModified s "OLD"

theorem SecretHeap.assign_secrets {μ : Type} (h : SecretHeap μ) (p : Addr) (s : String)
    (b : Bytes) : (h.assign p s b).secrets = h.secrets := by
  unfold SecretHeap.assign
  split <;> rfl

/-- A write under key `s` leaves every other key of every map as it was. -/
theorem SecretHeap.lookup_dataOf_assign_of_ne {μ : Type} (h : SecretHeap μ) (p q : Addr)
    {s t : String} (b : Bytes) (hne : t ≠ s) :
    ((h.assign p s b).dataOf q).lookup t = (h.dataOf q).lookup t := by
  unfold SecretHeap.dataOf
  rw [SecretHeap.assign_secrets]
  unfold SecretHeap.assign
  cases hp : (h.secrets p).Data with
  | none => rfl
  | some a =>
    cases hq : (h.secrets q).Data with
    | none => rfl
    | some a' =>
      by_cases haa : a' = a
      · subst haa
        simp only [Function.update_same, DataMap.set]
        exact Finmap.lookup_insert_of_ne _ hne
      · simp only [Function.update_noteq haa]

theorem SecretHeap.assign_assign_of_ne {μ : Type} (h : SecretHeap μ) (p : Addr)
    {s t : String} (b c : Bytes) (hne : s ≠ t) :
    (h.assign p s b).assign p t c = (h.assign p t c).assign p s b := by
  unfold SecretHeap.assign
  cases hp : (h.secrets p).Data with
  | none => simp only [hp]
  | some a =>
    simp only [hp, Function.update_same, Function.update_idem, DataMap.set]
    rw [Finmap.insert_insert_of_ne _ hne]

/-- The token of the second loop depends on the two maps only through their entries
under the key in question. -/
theorem modifiedToken_congr {o o' c c' : DataMap} {s : String}
    (ho : o'.lookup s = o.lookup s) (hc : c'.lookup s = c.lookup s) :
    modifiedToken o' c' s = modifiedToken o c s := by
  unfold modifiedToken DataMap.has DataMap.index
  rw [ho, hc]

theorem maskModifiedOnHeap_eq {μ : Type} (original safeModified : Addr) (h : SecretHeap μ)
    (s : String) (b : Bytes) :
    maskModifiedOnHeap original safeModified h s b =
      h.assign safeModified s
        (modifiedToken (h.dataOf original) (h.dataOf safeModified) s) := by
  unfold maskModifiedOnHeap modifiedToken
  split_ifs <;> rfl

/-- The body of the first loop on memory commutes with itself. -/
theorem maskOriginalOnHeap_comm {μ : Type} (safeOriginal : Addr) (h : SecretHeap μ)
    (a₁ : String) (b₁ : Bytes) (a₂ : String) (b₂ : Bytes) :
    maskOriginalOnHeap safeOriginal (maskOriginalOnHeap safeOriginal h a₁ b₁) a₂ b₂
      = maskOriginalOnHeap safeOriginal (maskOriginalOnHeap safeOriginal h a₂ b₂) a₁ b₁ := by
  by_cases hne : a₁ = a₂
  · subst hne; rfl
  · exact SecretHeap.assign_assign_of_ne h safeOriginal _ _ hne

/-- The body of the second loop on memory commutes with itself, whether or not the maps
of `original` and `safeModified` are the same object. -/
theorem maskModifiedOnHeap_comm {μ : Type} (original safeModified : Addr) (h : SecretHeap μ)
    (a₁ : String) (b₁ : Bytes) (a₂ : String) (b₂ : Bytes) :
    maskModifiedOnHeap original safeModified
        (maskModifiedOnHeap original safeModified h a₁ b₁) a₂ b₂
      = maskModifiedOnHeap original safeModified
        (maskModifiedOnHeap original safeModified h a₂ b₂) a₁ b₁ := by
  by_cases hne : a₁ = a₂
  · subst hne; rfl
  · simp only [maskModifiedOnHeap_eq]
    rw [modifiedToken_congr
        (SecretHeap.lookup_dataOf_assign_of_ne h safeModified original _ (Ne.symm hne))
        (SecretHeap.lookup_dataOf_assign_of_ne h safeModified safeModified _ (Ne.symm hne)),
      modifiedToken_congr
        (SecretHeap.lookup_dataOf_assign_of_ne h safeModified original _ hne)
        (SecretHeap.lookup_dataOf_assign_of_ne h safeModified safeModified _ hne)]
    exact SecretHeap.assign_assign_of_ne h safeModified _ _ hne

/-- Source lines 51-76 on memory: the returned string and the memory after the call. The
encoder is handed the two copies as it finds them in memory. -/
def JSONPatchSecretNoError.onHeap {μ : Type} (Encode : Secret μ → Except String Bytes)
    (CreateMergePatch : Bytes → Bytes → Except String Bytes) (h : SecretHeap μ)
    (original modified : Option Addr) : String × SecretHeap μ :=
  match original with
  | none => ("original object is nil", h)
  | some original =>
    match modified with
    | none => ("modified object is nil", h)
    | some modified =>
      let (h₁, safeModified) := h.DeepCopy modified
      let (h₂, safeOriginal) := h₁.DeepCopy original
      let h₃ := Finmap.foldl (maskOriginalOnHeap safeOriginal)
        (maskOriginalOnHeap_comm safeOriginal) h₂ (h₂.dataOf safeOriginal)
      let h₄ := Finmap.foldl (maskModifiedOnHeap original safeModified)
        (maskModifiedOnHeap_comm original safeModified) h₃ (h₃.dataOf safeModified)
      (JSONPatchNoError Encode CreateMergePatch (some (h₄.read safeOriginal))
        (some (h₄.read safeModified)), h₄)

/-- The `Spec` field of a route in memory: `TLS` is a reference to a `TLSConfig` object, nil
when `none`. -/
structure RouteSpecObj (σ : Type) where
  other : σ
  TLS : Option Addr

/-- A `routev1.Route` struct in memory. -/
structure RouteObj (μ σ : Type) where
  ObjectMeta : μ
  Spec : RouteSpecObj σ

/-- Memory holding routes and the `TLSConfig` objects their `Spec.TLS` fields refer to.
Addresses below `nextRoute` and `nextTLS` are allocated. -/
structure RouteHeap (μ σ : Type) where
  routes : Addr → RouteObj μ σ
  tls : Addr → TLSConfig
  nextRoute : Addr
  nextTLS : Addr

/-- The TLS sub-structure `p.Spec.TLS` refers to, when it is not nil. -/
def RouteHeap.tlsOf {μ σ : Type} (h : RouteHeap μ σ) (p : Addr) : Option TLSConfig :=
  (h.routes p).Spec.TLS.map h.tls

/-- The route at address `p` as a value: what an encoder sees when it follows `p`. -/
def RouteHeap.read {μ σ : Type} (h : RouteHeap μ σ) (p : Addr) : Route μ σ :=
  { ObjectMeta := (h.routes p).ObjectMeta,
    Spec := { other := (h.routes p).Spec.other, TLS := h.tlsOf p } }

/-- Go assignment `p.Spec.TLS.Key = key`: a write into the `TLSConfig` object `p.Spec.TLS`
refers to. (Through a nil reference Go panics; the source only assigns under a `!= nil`
guard.) -/
def RouteHeap.assignKey {μ σ : Type} (h : RouteHeap μ σ) (p : Addr) (key : String) :
    RouteHeap μ σ :=
  match (h.routes p).Spec.TLS with
  | none => h
  | some a => { h with tls := Function.update h.tls a { h.tls a with Key := key } }

/-- Modelled from the spec: the generated `(*Route).DeepCopy` is not part of the source; per
the spec a safe copy is "a deep copy". It allocates a new struct with the fields of `p` and,
when `p.Spec.TLS` is not nil, a new `TLSConfig` object with the same fields, to which the
new struct's `Spec.TLS` refers. Returns the new memory and the address of the copy. -/
def RouteHeap.DeepCopy {μ σ : Type} (h : RouteHeap μ σ) (p : Addr) : RouteHeap μ σ × Addr :=
  match (h.routes p).Spec.TLS with
  | none =>
    ({ h with routes := Function.update h.routes h.nextRoute (h.routes p),
              nextRoute := h.nextRoute + 1 }, h.nextRoute)
  | some a =>
    ({ routes := Function.update h.routes h.nextRoute
         { h.routes p with Spec := { (h.routes p).Spec with TLS := some h.nextTLS } },
       tls := Function.update h.tls h.nextTLS (h.tls a),
       nextRoute := h.nextRoute + 1, nextTLS := h.nextTLS + 1 }, h.nextRoute)

/-- Source lines 94-103 on memory, after the two copies have been made. -/
def JSONPatchRouteNoError.maskOnHeap {μ σ : Type} (h : RouteHeap μ σ)
    (safeOriginal safeModified : Addr) : RouteHeap μ σ :=
  match (h.routes safeOriginal).Spec.TLS with
  | none => h
  | some originalTLS =>
    let h₁ :=
      match (h.routes safeModified).Spec.TLS with
      | none => h
      | some modifiedTLS =>
        if (h.tls originalTLS).Key ≠ (h.tls modifiedTLS).Key then
          h.assignKey safeModified tlsKeyModifiedMessage
        else
          h.assignKey safeModified tlsKeyMaskedMessage
    h₁.assignKey safeOriginal tlsKeyMaskedMessage

/-- Source lines 83-106 on memory: the returned string and the memory after the call. The
encoder is handed the two copies as it finds them in memory. -/
def JSONPatchRouteNoError.onHeap {μ σ : Type} (Encode : Route μ σ → Except String Bytes)
    (CreateMergePatch : Bytes → Bytes → Except String Bytes) (h : RouteHeap μ σ)
    (original modified : Option Addr) : String × RouteHeap μ σ :=
  match original with
  | none => ("original object is nil", h)
  | some original =>
    match modified with
    | none => ("modified object is nil", h)
    | some modified =>
      let (h₁, safeModified) := h.DeepCopy modified
      let (h₂, safeOriginal) := h₁.DeepCopy original
      let h₃ := JSONPatchRouteNoError.maskOnHeap h₂ safeOriginal safeModified
      (JSONPatchNoError Encode CreateMergePatch (some (h₃.read safeOriginal))
        (some (h₃.read safeModified)), h₃)

/-- The secrets at `r` and `q` do not share a map object: no write through `q.Data` is
visible through `r.Data`. -/
def SecretHeap.separate {μ : Type} (g : SecretHeap μ) (r q : Addr) : Prop :=
  ∀ a b, (g.secrets r).Data = some a → (g.secrets q).Data = some b → a ≠ b

/-- The secret at address `p` and the map its `Data` refers to are allocated in `h`. -/
def SecretHeap.allocated {μ : Type} (h : SecretHeap μ) (p : Addr) : Bool :=
  decide (p < h.nextSecret) &&
    match (h.secrets p).Data with
    | none => true
    | some a => decide (a < h.nextMap)

/-- The route at address `p` and the object its `Spec.TLS` refers to are allocated in `h`. -/
def RouteHeap.allocated {μ σ : Type} (h : RouteHeap μ σ) (p : Addr) : Bool :=
  decide (p < h.nextRoute) &&
    match (h.routes p).Spec.TLS with
    | none => true
    | some a => decide (a < h.nextTLS)

/-- A memory with the two secrets `sampleOriginal` (address 0, map 0) and `sampleModified`
(address 1, map 1). -/
def sampleSecretHeap : SecretHeap Unit :=
  { secrets := fun p =>
      { ObjectMeta := (), Data := some p, StringData := ∅, Type_ := "Opaque" },
    maps := fun a => if a = 0 then sampleOriginal.Data else sampleModified.Data,
    nextSecret := 2, nextMap := 2 }

/-- A memory with one secret (address 0) whose `Data` is the map 0, passed as both
arguments of a call: the two arguments are aliases of each other. -/
def aliasedSecretHeap : SecretHeap Unit :=
  { secrets := fun _ =>
      { ObjectMeta := (), Data := some 0, StringData := ∅, Type_ := "Opaque" },
    maps := fun _ => sampleOriginal.Data,
    nextSecret := 1, nextMap := 1 }

/-- A memory with two routes (addresses 0 and 1) whose TLS sub-structures (0 and 1) carry
the keys `KEY ONE` and `KEY TWO`. -/
def sampleRouteHeap : RouteHeap Unit Unit :=
  { routes := fun p => { ObjectMeta := (), Spec := { other := (), TLS := some p } },
    tls := fun a => if a = 0 then sampleTLS "KEY ONE" else sampleTLS "KEY TWO",
    nextRoute := 2, nextTLS := 2 }

/-! ## Loop lemmas -/

section Loops

variable {μ : Type}

/-- The first loop, run over a list of entries, only rewrites `safeOriginal.Data`. -/
theorem foldl_maskOriginalStep_list (l : List (Sigma fun _ : String => Bytes))
    (v : SecretVars μ) :
    l.foldl (fun d e => maskOriginalStep d e.1 e.2) v =
      { v with safeOriginal := { v.safeOriginal with
          Data := l.foldl (fun d e => d.insert e.1 "OLD") v.safeOriginal.Data } } := by
  induction l generalizing v with
  | nil => rfl
  | cons e t ih => rw [List.foldl_cons, ih]; rfl

/-- The second loop, run over a list of entries, only rewrites `safeModified.Data`. -/
theorem foldl_maskModifiedStep_list (l : List (Sigma fun _ : String => Bytes))
    (v : SecretVars μ) :
    l.foldl (fun d e => maskModifiedStep d e.1 e.2) v =
      { v with safeModified := { v.safeModified with
          Data := l.foldl (fun d e => d.insert e.1 (modifiedToken v.original.Data d e.1))
            v.safeModified.Data } } := by
  induction l generalizing v with
  | nil => rfl
  | cons e t ih => rw [List.foldl_cons, ih, maskModifiedStep_eq]; rfl

theorem lookup_foldl_insert_old (l : List (Sigma fun _ : String => Bytes)) (d : DataMap)
    (k : String) :
    (l.foldl (fun d e => d.insert e.1 "OLD") d).lookup k =
      if k ∈ l.keys then some "OLD" else d.lookup k := by
  induction l generalizing d with
  | nil => simp
  | cons e t ih =>
    rw [List.foldl_cons, ih]
    by_cases hk : k ∈ t.keys
    · simp [hk]
    · by_cases he : k = e.1
      · subst he; simp [hk, Finmap.lookup_insert]
      · simp [hk, he, Finmap.lookup_insert_of_ne]

theorem lookup_foldl_insert_token (originalData : DataMap)
    (l : List (Sigma fun _ : String => Bytes)) (hl : l.NodupKeys) (d : DataMap) (k : String) :
    (l.foldl (fun d e => d.insert e.1 (modifiedToken originalData d e.1)) d).lookup k =
      if k ∈ l.keys then some (modifiedToken originalData d k) else d.lookup k := by
  induction l generalizing d with
  | nil => simp
  | cons e t ih =>
    obtain ⟨hnot, ht⟩ := List.nodupKeys_cons.mp hl
    rw [List.foldl_cons, ih ht]
    by_cases he : k = e.1
    · subst he; simp [hnot, Finmap.lookup_insert]
    · by_cases hk : k ∈ t.keys
      · simp [hk, modifiedToken_insert_of_ne _ _ _ he]
      · simp [hk, he, Finmap.lookup_insert_of_ne]

/-- State after the first loop over the map `m`. -/
theorem foldl_maskOriginalStep (m : DataMap) (v : SecretVars μ) :
    ∃ D : DataMap,
      Finmap.foldl maskOriginalStep maskOriginalStep_comm v m =
        { v with safeOriginal := { v.safeOriginal with Data := D } } ∧
      ∀ k, D.lookup k = if k ∈ m then some "OLD" else v.safeOriginal.Data.lookup k := by
  induction m using Finmap.induction_on with
  | H a =>
    refine ⟨a.entries.foldl (fun d e => d.insert e.1 "OLD") v.safeOriginal.Data, ?_, ?_⟩
    · exact foldl_maskOriginalStep_list a.entries v
    · intro k
      have hmem : k ∈ a.toFinmap ↔ k ∈ a.entries.keys := Finmap.mem_toFinmap
      rw [lookup_foldl_insert_old]
      by_cases h : k ∈ a.entries.keys
      · rw [if_pos h, if_pos (hmem.mpr h)]
      · rw [if_neg h, if_neg (fun h' => h (hmem.mp h'))]

/-- State after the second loop over the map `m`. -/
theorem foldl_maskModifiedStep (m : DataMap) (v : SecretVars μ) :
    ∃ D : DataMap,
      Finmap.foldl maskModifiedStep maskModifiedStep_comm v m =
        { v with safeModified := { v.safeModified with Data := D } } ∧
      ∀ k, D.lookup k =
        if k ∈ m then some (modifiedToken v.original.Data v.safeModified.Data k)
        else v.safeModified.Data.lookup k := by
  induction m using Finmap.induction_on with
  | H a =>
    refine ⟨a.entries.foldl (fun d e => d.insert e.1 (modifiedToken v.original.Data d e.1))
      v.safeModified.Data, ?_, ?_⟩
    · exact foldl_maskModifiedStep_list a.entries v
    · intro k
      have hmem : k ∈ a.toFinmap ↔ k ∈ a.entries.keys := Finmap.mem_toFinmap
      rw [lookup_foldl_insert_token _ _ a.nodupKeys]
      by_cases h : k ∈ a.entries.keys
      · rw [if_pos h, if_pos (hmem.mpr h)]
      · rw [if_neg h, if_neg (fun h' => h (hmem.mp h'))]

end Loops

/-! ## The state handed to `JSONPatchNoError` -/

section SafeCopies

variable {μ σ : Type}

/-- Closed form of the variables of `JSONPatchSecretNoError` at line 75: the arguments are
as passed, each copy differs from its argument at most in `Data`, and the two `Data` maps
are described key by key. -/
theorem JSONPatchSecretNoError.vars_eq (original modified : Secret μ) :
    ∃ DO DM : DataMap,
      JSONPatchSecretNoError.vars original modified =
        { original := original, modified := modified,
          safeModified := { modified with Data := DM },
          safeOriginal := { original with Data := DO } } ∧
      (∀ k, DO.lookup k = if k ∈ original.Data then some "OLD" else none) ∧
      (∀ k, DM.lookup k =
        if k ∈ modified.Data then some (modifiedToken original.Data modified.Data k)
        else none) := by
  unfold JSONPatchSecretNoError.vars
  obtain ⟨DO, hO, hDO⟩ := foldl_maskOriginalStep original.DeepCopy.Data
    { original := original, modified := modified,
      safeModified := modified.DeepCopy, safeOriginal := original.DeepCopy }
  simp only at hO ⊢
  rw [hO]
  obtain ⟨DM, hM, hDM⟩ := foldl_maskModifiedStep modified.DeepCopy.Data
    { original := original, modified := modified,
      safeModified := modified.DeepCopy,
      safeOriginal := { original.DeepCopy with Data := DO } }
  simp only at hM ⊢
  rw [hM]
  refine ⟨DO, DM, rfl, ?_, ?_⟩
  · intro k
    rw [hDO k]
    by_cases h : k ∈ original.Data
    · simp [Secret.DeepCopy, h]
    · simp [Secret.DeepCopy, h, Finmap.lookup_eq_none.mpr h]
  · intro k
    rw [hDM k]
    by_cases h : k ∈ modified.Data
    · simp [Secret.DeepCopy, h]
    · simp [Secret.DeepCopy, h, Finmap.lookup_eq_none.mpr h]

theorem JSONPatchSecretNoError.lookup_safeOriginal (original modified : Secret μ)
    (k : String) :
    (JSONPatchSecretNoError.vars original modified).safeOriginal.Data.lookup k =
      if k ∈ original.Data then some "OLD" else none := by
  obtain ⟨DO, DM, h, hDO, _⟩ := JSONPatchSecretNoError.vars_eq original modified
  rw [h]; exact hDO k

theorem JSONPatchSecretNoError.lookup_safeModified (original modified : Secret μ)
    (k : String) :
    (JSONPatchSecretNoError.vars original modified).safeModified.Data.lookup k =
      if k ∈ modified.Data then some (modifiedToken original.Data modified.Data k)
      else none := by
  obtain ⟨DO, DM, h, _, hDM⟩ := JSONPatchSecretNoError.vars_eq original modified
  rw [h]; exact hDM k

/-- The three values the second loop can store. -/
theorem modifiedToken_cases (originalData current : DataMap) (s : String) :
    modifiedToken originalData current s = "OLD" ∨
    modifiedToken originalData current s = "NEW" ∨
    modifiedToken originalData current s = "MODIFIED" := by
  unfold modifiedToken
  split_ifs <;> simp

end SafeCopies

section Tokens

theorem modifiedToken_of_not_mem {originalData current : DataMap} {s : String}
    (h : s ∉ originalData) : modifiedToken originalData current s = "NEW" := by
  unfold modifiedToken DataMap.has
  rw [Finmap.lookup_eq_none.mpr h]
  rfl

theorem modifiedToken_of_lookup {originalData current : DataMap} {s : String} {a b : Bytes}
    (ha : originalData.lookup s = some a) (hb : current.lookup s = some b) :
    modifiedToken originalData current s = if a = b then "OLD" else "MODIFIED" := by
  unfold modifiedToken DataMap.has DataMap.index DeepEqual
  rw [ha, hb]
  by_cases h : a = b <;> simp [h]

end Tokens

section Congruence

variable {μ : Type}

/-- The safe copies depend on the Data values only through the key sets and through the
per-key equality of original and modified value: two argument pairs that agree on all other
fields, on the key sets and on that equality pattern produce the same safe copies. -/
theorem JSONPatchSecretNoError.safe_copies_congr (o₁ m₁ o₂ m₂ : Secret μ)
    (hoMeta : o₁.ObjectMeta = o₂.ObjectMeta) (hoSD : o₁.StringData = o₂.StringData)
    (hoType : o₁.Type_ = o₂.Type_)
    (hmMeta : m₁.ObjectMeta = m₂.ObjectMeta) (hmSD : m₁.StringData = m₂.StringData)
    (hmType : m₁.Type_ = m₂.Type_)
    (hoKeys : ∀ k, k ∈ o₁.Data ↔ k ∈ o₂.Data) (hmKeys : ∀ k, k ∈ m₁.Data ↔ k ∈ m₂.Data)
    (hpat : ∀ k, k ∈ o₁.Data → k ∈ m₁.Data →
      (o₁.Data.lookup k = m₁.Data.lookup k ↔ o₂.Data.lookup k = m₂.Data.lookup k)) :
    (JSONPatchSecretNoError.vars o₁ m₁).safeOriginal
        = (JSONPatchSecretNoError.vars o₂ m₂).safeOriginal ∧
    (JSONPatchSecretNoError.vars o₁ m₁).safeModified
        = (JSONPatchSecretNoError.vars o₂ m₂).safeModified := by
  obtain ⟨DO₁, DM₁, h₁, hDO₁, hDM₁⟩ := JSONPatchSecretNoError.vars_eq o₁ m₁
  obtain ⟨DO₂, DM₂, h₂, hDO₂, hDM₂⟩ := JSONPatchSecretNoError.vars_eq o₂ m₂
  have hDO : DO₁ = DO₂ := by
    apply Finmap.ext_lookup
    intro k
    rw [hDO₁ k, hDO₂ k]
    by_cases h : k ∈ o₁.Data
    · rw [if_pos h, if_pos ((hoKeys k).mp h)]
    · rw [if_neg h, if_neg (fun h' => h ((hoKeys k).mpr h'))]
  have hDM : DM₁ = DM₂ := by
    apply Finmap.ext_lookup
    intro k
    rw [hDM₁ k, hDM₂ k]
    by_cases hm : k ∈ m₁.Data
    · rw [if_pos hm, if_pos ((hmKeys k).mp hm)]
      by_cases ho : k ∈ o₁.Data
      · obtain ⟨a₁, ha₁⟩ := Finmap.mem_iff.mp ho
        obtain ⟨b₁, hb₁⟩ := Finmap.mem_iff.mp hm
        obtain ⟨a₂, ha₂⟩ := Finmap.mem_iff.mp ((hoKeys k).mp ho)
        obtain ⟨b₂, hb₂⟩ := Finmap.mem_iff.mp ((hmKeys k).mp hm)
        rw [modifiedToken_of_lookup ha₁ hb₁, modifiedToken_of_lookup ha₂ hb₂]
        have hiff := hpat k ho hm
        rw [ha₁, hb₁, ha₂, hb₂, Option.some_inj, Option.some_inj] at hiff
        by_cases hab : a₁ = b₁
        · rw [if_pos hab, if_pos (hiff.mp hab)]
        · rw [if_neg hab, if_neg (fun h' => hab (hiff.mpr h'))]
      · rw [modifiedToken_of_not_mem ho,
          modifiedToken_of_not_mem (fun h' => ho ((hoKeys k).mpr h'))]
    · rw [if_neg hm, if_neg (fun h' => hm ((hmKeys k).mpr h'))]
  rw [h₁, h₂]
  cases o₁; cases o₂; cases m₁; cases m₂
  simp only at hoMeta hoSD hoType hmMeta hmSD hmType
  subst hoMeta hoSD hoType hmMeta hmSD hmType hDO hDM
  exact ⟨rfl, rfl⟩

end Congruence

section Relabelling

theorem DataMap.lookup_singleton (a : String) (b : Bytes) (k : String) :
    (Finmap.singleton a b : DataMap).lookup k = if k = a then some b else none := by
  by_cases h : k = a
  · subst h; rw [if_pos rfl]; exact Finmap.lookup_singleton_eq
  · rw [if_neg h]
    exact Finmap.lookup_eq_none.mpr (fun hm => h ((Finmap.mem_singleton k a b).mp hm))

theorem append_bang_injective : Function.Injective (fun s : String => s ++ "!") := by
  intro a b h
  have h' := congrArg String.data h
  simp only [String.data_append] at h'
  exact String.ext (List.append_cancel_right h')

theorem ne_append_bang (s : String) : s ≠ s ++ "!" := by
  intro h
  have h' := congrArg String.length h
  rw [String.length_append] at h'
  have h1 : ("!" : String).length = 1 := by decide
  omega

/-- The returned string is determined by the two safe copies. -/
theorem JSONPatchSecretNoError.eq_of_safe_copies {μ : Type}
    (Encode : Secret μ → Except String Bytes)
    (CreateMergePatch : Bytes → Bytes → Except String Bytes) (o₁ m₁ o₂ m₂ : Secret μ)
    (h : (JSONPatchSecretNoError.vars o₁ m₁).safeOriginal
          = (JSONPatchSecretNoError.vars o₂ m₂).safeOriginal ∧
        (JSONPatchSecretNoError.vars o₁ m₁).safeModified
          = (JSONPatchSecretNoError.vars o₂ m₂).safeModified) :
    JSONPatchSecretNoError Encode CreateMergePatch (some o₁) (some m₁)
      = JSONPatchSecretNoError Encode CreateMergePatch (some o₂) (some m₂) := by
  show JSONPatchNoError Encode CreateMergePatch
      (some (JSONPatchSecretNoError.vars o₁ m₁).safeOriginal)
      (some (JSONPatchSecretNoError.vars o₁ m₁).safeModified)
    = JSONPatchNoError Encode CreateMergePatch
      (some (JSONPatchSecretNoError.vars o₂ m₂).safeOriginal)
      (some (JSONPatchSecretNoError.vars o₂ m₂).safeModified)
  rw [h.1, h.2]

/-- Whatever the encoder and the patch engine are, some pair of secrets with a changed
value has a raw value that occurs in the returned string, and that value is non-empty as
soon as the returned string is: the diff of a one-key secret whose value changed is the
same string for every pair of distinct values, and that string can itself be the value. -/
theorem JSONPatchSecretNoError.some_raw_value_occurs_in_output
    (Encode : Secret Unit → Except String Bytes)
    (CreateMergePatch : Bytes → Bytes → Except String Bytes) :
    ∃ original modified : Secret Unit, ∃ v : Bytes,
      original.Data.lookup "password" = some v ∧
      original.Data.lookup "password" ≠ modified.Data.lookup "password" ∧
      occursIn v (JSONPatchSecretNoError Encode CreateMergePatch (some original)
        (some modified)) ∧
      (JSONPatchSecretNoError Encode CreateMergePatch (some original) (some modified) ≠ "" →
        v ≠ "") := by
  let out := JSONPatchSecretNoError Encode CreateMergePatch
    (some (sampleSecret (Finmap.singleton "password" "x")))
    (some (sampleSecret (Finmap.singleton "password" "y")))
  have hout : JSONPatchSecretNoError Encode CreateMergePatch
      (some (sampleSecret (Finmap.singleton "password" out)))
      (some (sampleSecret (Finmap.singleton "password" (out ++ "!")))) = out := by
    apply JSONPatchSecretNoError.eq_of_safe_copies
    exact JSONPatchSecretNoError.safe_copies_congr
      (sampleSecret (Finmap.singleton "password" out))
      (sampleSecret (Finmap.singleton "password" (out ++ "!")))
      (sampleSecret (Finmap.singleton "password" "x"))
      (sampleSecret (Finmap.singleton "password" "y"))
      rfl rfl rfl rfl rfl rfl
      (fun k => by simp [sampleSecret, Finmap.mem_singleton])
      (fun k => by simp [sampleSecret, Finmap.mem_singleton])
      (fun k hk _ => by
        have hk' : k = "password" := by
          simpa [sampleSecret, Finmap.mem_singleton] using hk
        subst hk'
        simp only [sampleSecret, DataMap.lookup_singleton, if_true, Option.some_inj]
        exact ⟨fun h => absurd h (ne_append_bang out), fun h => absurd h (by decide)⟩)
  refine ⟨sampleSecret (Finmap.singleton "password" out),
    sampleSecret (Finmap.singleton "password" (out ++ "!")), out, ?_, ?_, ?_, ?_⟩
  · simp [sampleSecret, DataMap.lookup_singleton]
  · simp only [sampleSecret, DataMap.lookup_singleton, if_true, ne_eq, Option.some_inj]
    exact ne_append_bang out
  · rw [hout]; exact List.infix_refl _
  · rw [hout]; exact id

end Relabelling

section Routes

variable {μ σ : Type}

/-- When the original route has no TLS sub-structure the guard of source line 94 fails and
no assignment runs: both safe copies are the unchanged deep copies, whatever the modified
route carries. -/
theorem JSONPatchRouteNoError.vars_of_original_without_TLS (original modified : Route μ σ)
    (h : original.Spec.TLS = none) :
    (JSONPatchRouteNoError.vars original modified).safeOriginal = original ∧
    (JSONPatchRouteNoError.vars original modified).safeModified = modified := by
  obtain ⟨objectMeta, other, tls⟩ := original
  simp only at h
  subst h
  exact ⟨rfl, rfl⟩

end Routes

section Strings

theorem occursIn_append_right {v p : String} (e : String) (h : occursIn v p) :
    occursIn v (p ++ e) := by
  obtain ⟨s, t, hst⟩ := h
  refine ⟨s, t ++ e.data, ?_⟩
  rw [String.data_append, ← hst]
  simp only [List.append_assoc]

theorem beginsWith_refl (p : String) : beginsWith p p :=
  ⟨[], List.append_nil _⟩

/-- A string that begins with a non-empty string has the same first character. -/
theorem head?_eq_of_beginsWith {p r : String} (h : beginsWith p r) (hp : p.data ≠ []) :
    r.data.head? = p.data.head? := by
  obtain ⟨t, ht⟩ := h
  rw [← ht]
  cases hd : p.data with
  | nil => exact absurd hd hp
  | cons c cs => rfl

theorem beginsWith_append (p e : String) : beginsWith p (p ++ e) :=
  ⟨e.data, (String.data_append p e).symm⟩

theorem beginsWith_append_of_beginsWith {q p : String} (e : String) (h : beginsWith q p) :
    beginsWith q (p ++ e) := by
  obtain ⟨t, ht⟩ := h
  refine ⟨t ++ e.data, ?_⟩
  rw [String.data_append, ← ht, List.append_assoc]

/-- Two strings with the same number of characters, each followed by any string, give
equal results only if they are equal. -/
theorem append_ne_of_ne_of_length_eq {p q : String} (hlen : p.data.length = q.data.length)
    (hne : p ≠ q) (e₁ e₂ : String) : p ++ e₁ ≠ q ++ e₂ := by
  intro h
  have h' := congrArg String.data h
  rw [String.data_append, String.data_append] at h'
  exact hne (String.ext (List.append_inj h' hlen).1)

end Strings

section Frames

variable {μ σ : Type}

theorem JSONPatchSecretNoError.keys_safeOriginal (original modified : Secret μ) :
    (JSONPatchSecretNoError.vars original modified).safeOriginal.Data.keys
      = original.Data.keys := by
  ext k
  rw [Finmap.mem_keys, Finmap.mem_keys, ← Finmap.lookup_isSome,
    JSONPatchSecretNoError.lookup_safeOriginal]
  by_cases h : k ∈ original.Data <;> simp [h]

theorem JSONPatchSecretNoError.keys_safeModified (original modified : Secret μ) :
    (JSONPatchSecretNoError.vars original modified).safeModified.Data.keys
      = modified.Data.keys := by
  ext k
  rw [Finmap.mem_keys, Finmap.mem_keys, ← Finmap.lookup_isSome,
    JSONPatchSecretNoError.lookup_safeModified]
  by_cases h : k ∈ modified.Data <;> simp [h]

/-- Closed form of the variables of `JSONPatchRouteNoError` at line 105, by cases on the two
TLS sub-structures. -/
theorem JSONPatchRouteNoError.vars_cases (original modified : Route μ σ) :
    (original.Spec.TLS = none ∧
      (JSONPatchRouteNoError.vars original modified).safeOriginal = original ∧
      (JSONPatchRouteNoError.vars original modified).safeModified = modified) ∨
    (∃ originalTLS, original.Spec.TLS = some originalTLS ∧ modified.Spec.TLS = none ∧
      (JSONPatchRouteNoError.vars original modified).safeOriginal
        = original.assignTLSKey originalTLS tlsKeyMaskedMessage ∧
      (JSONPatchRouteNoError.vars original modified).safeModified = modified) ∨
    (∃ originalTLS modifiedTLS, original.Spec.TLS = some originalTLS ∧
      modified.Spec.TLS = some modifiedTLS ∧
      (JSONPatchRouteNoError.vars original modified).safeOriginal
        = original.assignTLSKey originalTLS tlsKeyMaskedMessage ∧
      (JSONPatchRouteNoError.vars original modified).safeModified
        = modified.assignTLSKey modifiedTLS
          (if originalTLS.Key ≠ modifiedTLS.Key then tlsKeyModifiedMessage
            else tlsKeyMaskedMessage)) := by
  obtain ⟨oMeta, oOther, oTLS⟩ := original
  obtain ⟨mMeta, mOther, mTLS⟩ := modified
  cases oTLS with
  | none => exact Or.inl ⟨rfl, rfl, rfl⟩
  | some originalTLS =>
    cases mTLS with
    | none => exact Or.inr (Or.inl ⟨originalTLS, rfl, rfl, rfl, rfl⟩)
    | some modifiedTLS =>
      refine Or.inr (Or.inr ⟨originalTLS, modifiedTLS, rfl, rfl, rfl, ?_⟩)
      simp only [JSONPatchRouteNoError.vars, Route.DeepCopy]
      split_ifs <;> rfl

theorem Route.withoutTLSKey_assignTLSKey (r : Route μ σ) (tls : TLSConfig) (key : String)
    (h : r.Spec.TLS = some tls) : (r.assignTLSKey tls key).withoutTLSKey = r.withoutTLSKey := by
  obtain ⟨rMeta, rOther, rTLS⟩ := r
  simp only at h
  subst h
  rfl

theorem Route.tlsOtherFields_withoutTLSKey (r : Route μ σ) :
    r.withoutTLSKey.tlsOtherFields = r.tlsOtherFields := by
  obtain ⟨rMeta, rOther, rTLS⟩ := r
  cases rTLS <;> rfl

/-- Both safe copies of `JSONPatchRouteNoError` agree with their inputs once the TLS key is
left out of the comparison. -/
theorem JSONPatchRouteNoError.withoutTLSKey_safe_copies (original modified : Route μ σ) :
    (JSONPatchRouteNoError.vars original modified).safeOriginal.withoutTLSKey
      = original.withoutTLSKey ∧
    (JSONPatchRouteNoError.vars original modified).safeModified.withoutTLSKey
      = modified.withoutTLSKey := by
  rcases JSONPatchRouteNoError.vars_cases original modified with
    ⟨_, hO, hM⟩ | ⟨t, hTLS, _, hO, hM⟩ | ⟨t, t', hTLS, hTLS', hO, hM⟩
  · rw [hO, hM]; exact ⟨rfl, rfl⟩
  · rw [hO, hM]; exact ⟨Route.withoutTLSKey_assignTLSKey _ _ _ hTLS, rfl⟩
  · rw [hO, hM]
    exact ⟨Route.withoutTLSKey_assignTLSKey _ _ _ hTLS,
      Route.withoutTLSKey_assignTLSKey _ _ _ hTLS'⟩

end Frames

/-! ## Memory lemmas -/

section Memory

variable {μ σ : Type}

/-- A property kept by the loop body holds after the loop. -/
theorem foldl_invariant {δ : Type} (P : δ → Prop) (f : δ → String → Bytes → δ)
    (H : ∀ d a₁ b₁ a₂ b₂, f (f d a₁ b₁) a₂ b₂ = f (f d a₂ b₂) a₁ b₁)
    (hstep : ∀ d a b, P d → P (f d a b)) (m : DataMap) (d : δ) (hd : P d) :
    P (Finmap.foldl f H d m) := by
  induction m using Finmap.induction_on with
  | H al =>
    show P (al.entries.foldl (fun d e => f d e.1 e.2) d)
    generalize al.entries = l
    induction l generalizing d with
    | nil => exact hd
    | cons e t ih => exact ih (f d e.1 e.2) (hstep d e.1 e.2 hd)

/-- A write through a reference is visible through every alias of it: the memory model
does distinguish a program that writes into the caller's map. -/
theorem SecretHeap.assign_is_visible_through_alias :
    ((aliasedSecretHeap.assign 0 "a" "OLD").dataOf 0).lookup "a" = some "OLD" ∧
    (aliasedSecretHeap.dataOf 0).lookup "a" = some "x" := by
  decide

/-- The body of the first loop, run through the caller's own reference instead of a copy,
overwrites the caller's entry: that the source runs it through `safeOriginal` matters. -/
theorem maskOriginalOnHeap_through_callers_reference :
    ((maskOriginalOnHeap 0 sampleSecretHeap "a" "x").read 0).Data.lookup "a" = some "OLD" ∧
    (sampleSecretHeap.read 0).Data.lookup "a" = some "x" := by
  decide

/-- A write through `q` changes no struct, no counter, and no map object other than the
one `q.Data` refers to. -/
theorem SecretHeap.assign_frame (h : SecretHeap μ) (q : Addr) (s : String) (b : Bytes)
    (N : Addr) (hq : ∀ a, (h.secrets q).Data = some a → N ≤ a) :
    (h.assign q s b).secrets = h.secrets ∧
    (h.assign q s b).nextSecret = h.nextSecret ∧
    (h.assign q s b).nextMap = h.nextMap ∧
    ∀ a, a < N → (h.assign q s b).maps a = h.maps a := by
  unfold SecretHeap.assign
  cases hD : (h.secrets q).Data with
  | none => exact ⟨rfl, rfl, rfl, fun _ _ => rfl⟩
  | some a₀ =>
    refine ⟨rfl, rfl, rfl, ?_⟩
    intro a ha
    have hne : a ≠ a₀ := Nat.ne_of_lt (Nat.lt_of_lt_of_le ha (hq a₀ hD))
    exact Function.update_noteq hne _ _

/-- `DeepCopy` changes no allocated object, and the copy's `Data` is nil or refers to a
map object that was not allocated before. -/
theorem SecretHeap.DeepCopy_frame (h : SecretHeap μ) (p : Addr) :
    (h.DeepCopy p).2 = h.nextSecret ∧
    (h.DeepCopy p).1.nextSecret = h.nextSecret + 1 ∧
    h.nextMap ≤ (h.DeepCopy p).1.nextMap ∧
    (∀ q, q < h.nextSecret → (h.DeepCopy p).1.secrets q = h.secrets q) ∧
    (∀ a, a < h.nextMap → (h.DeepCopy p).1.maps a = h.maps a) ∧
    (∀ a, ((h.DeepCopy p).1.secrets h.nextSecret).Data = some a → h.nextMap ≤ a) := by
  unfold SecretHeap.DeepCopy
  cases hD : (h.secrets p).Data with
  | none =>
    refine ⟨rfl, rfl, le_refl _, ?_, fun _ _ => rfl, ?_⟩
    · intro q hq
      exact Function.update_noteq (Nat.ne_of_lt hq) _ _
    · intro a ha
      simp only [Function.update_same] at ha
      rw [hD] at ha
      exact absurd ha (by simp)
  | some a₀ =>
    refine ⟨rfl, rfl, Nat.le_succ _, ?_, ?_, ?_⟩
    · intro q hq
      exact Function.update_noteq (Nat.ne_of_lt hq) _ _
    · intro a ha
      exact Function.update_noteq (Nat.ne_of_lt ha) _ _
    · intro a ha
      simp only [Function.update_same] at ha
      exact Nat.le_of_eq (Option.some.inj ha)

/-- The two loops on memory, run with `safeOriginal` and `safeModified` whose maps lie at or
above `N`, change no struct and no map object below `N`. -/
theorem JSONPatchSecretNoError.loops_frame (h : SecretHeap μ)
    (original safeOriginal safeModified : Addr) (N : Addr)
    (hO : ∀ a, (h.secrets safeOriginal).Data = some a → N ≤ a)
    (hM : ∀ a, (h.secrets safeModified).Data = some a → N ≤ a) (m₁ m₂ : DataMap) :
    (Finmap.foldl (maskModifiedOnHeap original safeModified)
        (maskModifiedOnHeap_comm original safeModified)
        (Finmap.foldl (maskOriginalOnHeap safeOriginal)
          (maskOriginalOnHeap_comm safeOriginal) h m₁) m₂).secrets = h.secrets ∧
    ∀ a, a < N →
      (Finmap.foldl (maskModifiedOnHeap original safeModified)
        (maskModifiedOnHeap_comm original safeModified)
        (Finmap.foldl (maskOriginalOnHeap safeOriginal)
          (maskOriginalOnHeap_comm safeOriginal) h m₁) m₂).maps a = h.maps a := by
  have h₁ := foldl_invariant
    (fun h' : SecretHeap μ => h'.secrets = h.secrets ∧ ∀ a, a < N → h'.maps a = h.maps a)
    (maskOriginalOnHeap safeOriginal) (maskOriginalOnHeap_comm safeOriginal)
    (fun d s b hd => by
      obtain ⟨hs, _, _, hm⟩ := SecretHeap.assign_frame d safeOriginal s "OLD" N
        (by rw [hd.1]; exact hO)
      exact ⟨hs.trans hd.1, fun a ha => (hm a ha).trans (hd.2 a ha)⟩)
    m₁ h ⟨rfl, fun _ _ => rfl⟩
  exact foldl_invariant
    (fun h' : SecretHeap μ => h'.secrets = h.secrets ∧ ∀ a, a < N → h'.maps a = h.maps a)
    (maskModifiedOnHeap original safeModified) (maskModifiedOnHeap_comm original safeModified)
    (fun d s b hd => by
      rw [maskModifiedOnHeap_eq]
      obtain ⟨hs, _, _, hm⟩ := SecretHeap.assign_frame d safeModified s
        (modifiedToken (d.dataOf original) (d.dataOf safeModified) s) N
        (by rw [hd.1]; exact hM)
      exact ⟨hs.trans hd.1, fun a ha => (hm a ha).trans (hd.2 a ha)⟩)
    m₂ _ h₁

/-- Memory after `JSONPatchSecretNoError` on two non-nil arguments: every struct and every
map object allocated before the call is as it was. -/
theorem JSONPatchSecretNoError.onHeap_frame (Encode : Secret μ → Except String Bytes)
    (CreateMergePatch : Bytes → Bytes → Except String Bytes) (h : SecretHeap μ)
    (original modified : Addr) :
    (∀ p, p < h.nextSecret →
      (JSONPatchSecretNoError.onHeap Encode CreateMergePatch h (some original)
        (some modified)).2.secrets p = h.secrets p) ∧
    (∀ a, a < h.nextMap →
      (JSONPatchSecretNoError.onHeap Encode CreateMergePatch h (some original)
        (some modified)).2.maps a = h.maps a) := by
  obtain ⟨e₁, n₁, m₁, s₁, f₁, d₁⟩ := SecretHeap.DeepCopy_frame h modified
  obtain ⟨e₂, n₂, m₂, s₂, f₂, d₂⟩ := SecretHeap.DeepCopy_frame (h.DeepCopy modified).1 original
  have hloops := JSONPatchSecretNoError.loops_frame
    ((h.DeepCopy modified).1.DeepCopy original).1 original
    ((h.DeepCopy modified).1.DeepCopy original).2 (h.DeepCopy modified).2 h.nextMap
    (by
      intro a ha
      rw [e₂] at ha
      exact le_trans m₁ (d₂ a ha))
    (by
      intro a ha
      rw [e₁, s₂ h.nextSecret (by rw [n₁]; exact Nat.lt_succ_self _)] at ha
      exact d₁ a ha)
    (((h.DeepCopy modified).1.DeepCopy original).1.dataOf
      ((h.DeepCopy modified).1.DeepCopy original).2)
    ((Finmap.foldl (maskOriginalOnHeap ((h.DeepCopy modified).1.DeepCopy original).2)
        (maskOriginalOnHeap_comm ((h.DeepCopy modified).1.DeepCopy original).2)
        ((h.DeepCopy modified).1.DeepCopy original).1
        (((h.DeepCopy modified).1.DeepCopy original).1.dataOf
          ((h.DeepCopy modified).1.DeepCopy original).2)).dataOf (h.DeepCopy modified).2)
  constructor
  · intro p hp
    exact (congrFun hloops.1 p).trans
      ((s₂ p (by rw [n₁]; exact Nat.lt_succ_of_lt hp)).trans (s₁ p hp))
  · intro a ha
    exact (hloops.2 a ha).trans ((f₂ a (Nat.lt_of_lt_of_le ha m₁)).trans (f₁ a ha))

end Memory

section RouteMemory

variable {μ σ : Type}

/-- A write through `q` changes no struct, no counter, and no `TLSConfig` object other than
the one `q.Spec.TLS` refers to. -/
theorem RouteHeap.assignKey_frame (h : RouteHeap μ σ) (q : Addr) (key : String) (N : Addr)
    (hq : ∀ a, (h.routes q).Spec.TLS = some a → N ≤ a) :
    (h.assignKey q key).routes = h.routes ∧
    ∀ a, a < N → (h.assignKey q key).tls a = h.tls a := by
  unfold RouteHeap.assignKey
  cases hD : (h.routes q).Spec.TLS with
  | none => exact ⟨rfl, fun _ _ => rfl⟩
  | some a₀ =>
    refine ⟨rfl, ?_⟩
    intro a ha
    have hne : a ≠ a₀ := Nat.ne_of_lt (Nat.lt_of_lt_of_le ha (hq a₀ hD))
    exact Function.update_noteq hne _ _

/-- `DeepCopy` changes no allocated object, and the copy's `Spec.TLS` is nil or refers to
a `TLSConfig` object that was not allocated before. -/
theorem RouteHeap.DeepCopy_route_frame (h : RouteHeap μ σ) (p : Addr) :
    (h.DeepCopy p).2 = h.nextRoute ∧
    (h.DeepCopy p).1.nextRoute = h.nextRoute + 1 ∧
    h.nextTLS ≤ (h.DeepCopy p).1.nextTLS ∧
    (∀ q, q < h.nextRoute → (h.DeepCopy p).1.routes q = h.routes q) ∧
    (∀ a, a < h.nextTLS → (h.DeepCopy p).1.tls a = h.tls a) ∧
    (∀ a, ((h.DeepCopy p).1.routes h.nextRoute).Spec.TLS = some a → h.nextTLS ≤ a) := by
  unfold RouteHeap.DeepCopy
  cases hD : (h.routes p).Spec.TLS with
  | none =>
    refine ⟨rfl, rfl, le_refl _, ?_, fun _ _ => rfl, ?_⟩
    · intro q hq
      exact Function.update_noteq (Nat.ne_of_lt hq) _ _
    · intro a ha
      simp only [Function.update_same] at ha
      rw [hD] at ha
      exact absurd ha (by simp)
  | some a₀ =>
    refine ⟨rfl, rfl, Nat.le_succ _, ?_, ?_, ?_⟩
    · intro q hq
      exact Function.update_noteq (Nat.ne_of_lt hq) _ _
    · intro a ha
      exact Function.update_noteq (Nat.ne_of_lt ha) _ _
    · intro a ha
      simp only [Function.update_same] at ha
      exact Nat.le_of_eq (Option.some.inj ha)

/-- Source lines 94-103 on memory, run with `safeOriginal` and `safeModified` whose TLS
objects lie at or above `N`, change no struct and no `TLSConfig` object below `N`. -/
theorem JSONPatchRouteNoError.maskOnHeap_frame (h : RouteHeap μ σ)
    (safeOriginal safeModified : Addr) (N : Addr)
    (hO : ∀ a, (h.routes safeOriginal).Spec.TLS = some a → N ≤ a)
    (hM : ∀ a, (h.routes safeModified).Spec.TLS = some a → N ≤ a) :
    (JSONPatchRouteNoError.maskOnHeap h safeOriginal safeModified).routes = h.routes ∧
    ∀ a, a < N →
      (JSONPatchRouteNoError.maskOnHeap h safeOriginal safeModified).tls a = h.tls a := by
  have hmod : ∀ key, (h.assignKey safeModified key).routes = h.routes ∧
      ∀ a, a < N → (h.assignKey safeModified key).tls a = h.tls a :=
    fun key => RouteHeap.assignKey_frame h safeModified key N hM
  have horig : ∀ h' : RouteHeap μ σ, (h'.routes = h.routes ∧ ∀ a, a < N → h'.tls a = h.tls a) →
      (h'.assignKey safeOriginal tlsKeyMaskedMessage).routes = h.routes ∧
      ∀ a, a < N → (h'.assignKey safeOriginal tlsKeyMaskedMessage).tls a = h.tls a := by
    intro h' hh'
    obtain ⟨hr, ht⟩ := RouteHeap.assignKey_frame h' safeOriginal tlsKeyMaskedMessage N
      (by rw [hh'.1]; exact hO)
    exact ⟨hr.trans hh'.1, fun a ha => (ht a ha).trans (hh'.2 a ha)⟩
  unfold JSONPatchRouteNoError.maskOnHeap
  cases (h.routes safeOriginal).Spec.TLS with
  | none => exact ⟨rfl, fun _ _ => rfl⟩
  | some originalTLS =>
    cases (h.routes safeModified).Spec.TLS with
    | none => exact horig h ⟨rfl, fun _ _ => rfl⟩
    | some modifiedTLS =>
      dsimp only
      split_ifs
      · exact horig _ (hmod _)
      · exact horig _ (hmod _)

/-- Memory after `JSONPatchRouteNoError` on two non-nil arguments: every struct and every
`TLSConfig` object allocated before the call is as it was. -/
theorem JSONPatchRouteNoError.onHeap_route_frame (Encode : Route μ σ → Except String Bytes)
    (CreateMergePatch : Bytes → Bytes → Except String Bytes) (h : RouteHeap μ σ)
    (original modified : Addr) :
    (∀ p, p < h.nextRoute →
      (JSONPatchRouteNoError.onHeap Encode CreateMergePatch h (some original)
        (some modified)).2.routes p = h.routes p) ∧
    (∀ a, a < h.nextTLS →
      (JSONPatchRouteNoError.onHeap Encode CreateMergePatch h (some original)
        (some modified)).2.tls a = h.tls a) := by
  obtain ⟨e₁, n₁, m₁, s₁, f₁, d₁⟩ := RouteHeap.DeepCopy_route_frame h modified
  obtain ⟨e₂, n₂, m₂, s₂, f₂, d₂⟩ := RouteHeap.DeepCopy_route_frame (h.DeepCopy modified).1 original
  have hmask := JSONPatchRouteNoError.maskOnHeap_frame
    ((h.DeepCopy modified).1.DeepCopy original).1
    ((h.DeepCopy modified).1.DeepCopy original).2 (h.DeepCopy modified).2 h.nextTLS
    (by
      intro a ha
      rw [e₂] at ha
      exact le_trans m₁ (d₂ a ha))
    (by
      intro a ha
      rw [e₁, s₂ h.nextRoute (by rw [n₁]; exact Nat.lt_succ_self _)] at ha
      exact d₁ a ha)
  constructor
  · intro p hp
    exact (congrFun hmask.1 p).trans
      ((s₂ p (by rw [n₁]; exact Nat.lt_succ_of_lt hp)).trans (s₁ p hp))
  · intro a ha
    exact (hmask.2 a ha).trans ((f₂ a (Nat.lt_of_lt_of_le ha m₁)).trans (f₁ a ha))

/-- A secret that is allocated reads the same in two memories that agree on the allocated
structs and map objects. -/
theorem SecretHeap.read_eq_of_frame (h h' : SecretHeap μ) (p : Addr)
    (hp : h.allocated p = true)
    (hs : ∀ q, q < h.nextSecret → h'.secrets q = h.secrets q)
    (hm : ∀ a, a < h.nextMap → h'.maps a = h.maps a) : h'.read p = h.read p := by
  unfold SecretHeap.allocated at hp
  rw [Bool.and_eq_true, decide_eq_true_eq] at hp
  obtain ⟨hlt, hD⟩ := hp
  unfold SecretHeap.read SecretHeap.dataOf
  rw [hs p hlt]
  cases hdata : (h.secrets p).Data with
  | none => rfl
  | some a =>
    rw [hdata] at hD
    simp only [hm a (of_decide_eq_true hD)]

/-- A route that is allocated reads the same in two memories that agree on the allocated
structs and `TLSConfig` objects. -/
theorem RouteHeap.read_route_eq_of_frame (h h' : RouteHeap μ σ) (p : Addr)
    (hp : h.allocated p = true)
    (hs : ∀ q, q < h.nextRoute → h'.routes q = h.routes q)
    (hm : ∀ a, a < h.nextTLS → h'.tls a = h.tls a) : h'.read p = h.read p := by
  unfold RouteHeap.allocated at hp
  rw [Bool.and_eq_true, decide_eq_true_eq] at hp
  obtain ⟨hlt, hD⟩ := hp
  unfold RouteHeap.read RouteHeap.tlsOf
  rw [hs p hlt]
  cases hdata : (h.routes p).Spec.TLS with
  | none => rfl
  | some a =>
    rw [hdata] at hD
    simp only [Option.map_some', hm a (of_decide_eq_true hD)]

end RouteMemory

section MemoryLoops

variable {μ : Type}

theorem SecretHeap.assign_of_data (g : SecretHeap μ) (q a : Addr) (s : String) (b : Bytes)
    (hq : (g.secrets q).Data = some a) :
    g.assign q s b = { g with maps := Function.update g.maps a ((g.maps a).insert s b) } := by
  unfold SecretHeap.assign DataMap.set
  rw [hq]

theorem SecretHeap.dataOf_of_data (g : SecretHeap μ) (q a : Addr)
    (hq : (g.secrets q).Data = some a) : g.dataOf q = g.maps a := by
  unfold SecretHeap.dataOf
  rw [hq]

/-- The map of `r` is not touched by a write into the map object at `a` when `r.Data` is
nil or refers to another object. -/
theorem SecretHeap.dataOf_update_of_ne (g : SecretHeap μ) (r a : Addr) (D : DataMap)
    (hr : ∀ b, (g.secrets r).Data = some b → b ≠ a) :
    ({ g with maps := Function.update g.maps a D } : SecretHeap μ).dataOf r = g.dataOf r := by
  unfold SecretHeap.dataOf
  cases hD : (g.secrets r).Data with
  | none => rfl
  | some b => exact Function.update_noteq (hr b hD) _ _

/-- The first loop on memory, run over a list of entries, rewrites the map object that
`safeOriginal.Data` refers to and nothing else. -/
theorem foldl_maskOriginalOnHeap_list (l : List (Sigma fun _ : String => Bytes))
    (g : SecretHeap μ) (q a : Addr) (hq : (g.secrets q).Data = some a) :
    l.foldl (fun d e => maskOriginalOnHeap q d e.1 e.2) g =
      { g with maps := Function.update g.maps a <|
          (l.foldl (fun d e => d.insert e.1 "OLD") (g.maps a)) } := by
  induction l generalizing g with
  | nil =>
    simp only [List.foldl_nil, Function.update_eq_self]
  | cons e t ih =>
    rw [List.foldl_cons, List.foldl_cons]
    have hstep : maskOriginalOnHeap q g e.1 e.2 =
        { g with maps := Function.update g.maps a ((g.maps a).insert e.1 "OLD") } :=
      SecretHeap.assign_of_data g q a e.1 "OLD" hq
    rw [ih (maskOriginalOnHeap q g e.1 e.2) (by rw [hstep]; exact hq), hstep]
    simp only [Function.update_same, Function.update_idem]

/-- The second loop on memory, run over a list of entries, rewrites the map object that
`safeModified.Data` refers to and nothing else, provided `original.Data` is nil or refers to
another map object. -/
theorem foldl_maskModifiedOnHeap_list (l : List (Sigma fun _ : String => Bytes))
    (g : SecretHeap μ) (o q a : Addr) (hq : (g.secrets q).Data = some a)
    (ho : ∀ b, (g.secrets o).Data = some b → b ≠ a) :
    l.foldl (fun d e => maskModifiedOnHeap o q d e.1 e.2) g =
      { g with maps := Function.update g.maps a <|
          (l.foldl (fun d e => d.insert e.1 (modifiedToken (g.dataOf o) d e.1))
            (g.maps a)) } := by
  induction l generalizing g with
  | nil =>
    simp only [List.foldl_nil, Function.update_eq_self]
  | cons e t ih =>
    rw [List.foldl_cons, List.foldl_cons]
    have hstep : maskModifiedOnHeap o q g e.1 e.2 =
        { g with maps := Function.update g.maps a <|
            ((g.maps a).insert e.1 (modifiedToken (g.dataOf o) (g.maps a) e.1)) } := by
      rw [maskModifiedOnHeap_eq, SecretHeap.dataOf_of_data g q a hq]
      exact SecretHeap.assign_of_data g q a e.1 _ hq
    rw [ih (maskModifiedOnHeap o q g e.1 e.2) (by rw [hstep]; exact hq)
      (by rw [hstep]; exact ho), hstep, SecretHeap.dataOf_update_of_ne g o a _ ho]
    simp only [Function.update_same, Function.update_idem]

/-- State of memory after the first loop, run over the map of `safeOriginal`. -/
theorem foldl_maskOriginalOnHeap (g : SecretHeap μ) (q : Addr) :
    (Finmap.foldl (maskOriginalOnHeap q) (maskOriginalOnHeap_comm q) g (g.dataOf q)).secrets
      = g.secrets ∧
    (∀ k, ((Finmap.foldl (maskOriginalOnHeap q) (maskOriginalOnHeap_comm q) g
        (g.dataOf q)).dataOf q).lookup k = if k ∈ g.dataOf q then some "OLD" else none) ∧
    (∀ r, g.separate r q →
      (Finmap.foldl (maskOriginalOnHeap q) (maskOriginalOnHeap_comm q) g
        (g.dataOf q)).dataOf r = g.dataOf r) := by
  cases hq : (g.secrets q).Data with
  | none =>
    have hempty : g.dataOf q = ∅ := by unfold SecretHeap.dataOf; rw [hq]
    rw [hempty]
    have hfold : Finmap.foldl (maskOriginalOnHeap q) (maskOriginalOnHeap_comm q) g ∅ = g := rfl
    rw [hfold]
    refine ⟨rfl, ?_, fun _ _ => rfl⟩
    intro k
    rw [hempty, if_neg (Finmap.not_mem_empty), Finmap.lookup_empty]
  | some a =>
    have hmap : g.dataOf q = g.maps a := SecretHeap.dataOf_of_data g q a hq
    rw [hmap]
    generalize hm : g.maps a = m
    induction m using Finmap.induction_on with
    | H al =>
      have hfold : Finmap.foldl (maskOriginalOnHeap q) (maskOriginalOnHeap_comm q) g
          al.toFinmap = { g with maps := Function.update g.maps a <|
            (al.entries.foldl (fun d e => d.insert e.1 "OLD") (g.maps a)) } :=
        foldl_maskOriginalOnHeap_list al.entries g q a hq
      rw [hfold]
      refine ⟨rfl, ?_, ?_⟩
      · intro k
        have hmem : k ∈ al.toFinmap ↔ k ∈ al.entries.keys := Finmap.mem_toFinmap
        simp only [SecretHeap.dataOf, hq, Function.update_same]
        rw [lookup_foldl_insert_old, hm]
        by_cases hk : k ∈ al.entries.keys
        · rw [if_pos hk, if_pos (hmem.mpr hk)]
        · rw [if_neg hk, if_neg (fun h' => hk (hmem.mp h'))]
          exact Finmap.lookup_eq_none.mpr (fun h' => hk (hmem.mp h'))
      · intro r hr
        exact SecretHeap.dataOf_update_of_ne g r a _ (fun b hb => hr b a hb hq)

/-- State of memory after the second loop, run over the map of `safeModified`, when
`original` and `safeModified` do not share a map object. -/
theorem foldl_maskModifiedOnHeap (g : SecretHeap μ) (o q : Addr) (hsep : g.separate o q) :
    (Finmap.foldl (maskModifiedOnHeap o q) (maskModifiedOnHeap_comm o q) g
      (g.dataOf q)).secrets = g.secrets ∧
    (∀ k, ((Finmap.foldl (maskModifiedOnHeap o q) (maskModifiedOnHeap_comm o q) g
        (g.dataOf q)).dataOf q).lookup k =
      if k ∈ g.dataOf q then some (modifiedToken (g.dataOf o) (g.dataOf q) k) else none) ∧
    (∀ r, g.separate r q →
      (Finmap.foldl (maskModifiedOnHeap o q) (maskModifiedOnHeap_comm o q) g
        (g.dataOf q)).dataOf r = g.dataOf r) := by
  cases hq : (g.secrets q).Data with
  | none =>
    have hempty : g.dataOf q = ∅ := by unfold SecretHeap.dataOf; rw [hq]
    rw [hempty]
    have hfold : Finmap.foldl (maskModifiedOnHeap o q) (maskModifiedOnHeap_comm o q) g ∅
        = g := rfl
    rw [hfold]
    refine ⟨rfl, ?_, fun _ _ => rfl⟩
    intro k
    rw [hempty, if_neg (Finmap.not_mem_empty), Finmap.lookup_empty]
  | some a =>
    have ho : ∀ b, (g.secrets o).Data = some b → b ≠ a := fun b hb => hsep b a hb hq
    have hmap : g.dataOf q = g.maps a := SecretHeap.dataOf_of_data g q a hq
    rw [hmap]
    generalize hm : g.maps a = m
    induction m using Finmap.induction_on with
    | H al =>
      have hfold : Finmap.foldl (maskModifiedOnHeap o q) (maskModifiedOnHeap_comm o q) g
          al.toFinmap = { g with maps := Function.update g.maps a <|
            (al.entries.foldl (fun d e => d.insert e.1 (modifiedToken (g.dataOf o) d e.1))
              (g.maps a)) } :=
        foldl_maskModifiedOnHeap_list al.entries g o q a hq ho
      rw [hfold]
      refine ⟨rfl, ?_, ?_⟩
      · intro k
        have hmem : k ∈ al.toFinmap ↔ k ∈ al.entries.keys := Finmap.mem_toFinmap
        simp only [SecretHeap.dataOf, hq, Function.update_same]
        rw [lookup_foldl_insert_token _ _ al.nodupKeys, hm]
        by_cases hk : k ∈ al.entries.keys
        · rw [if_pos hk, if_pos (hmem.mpr hk)]
        · rw [if_neg hk, if_neg (fun h' => hk (hmem.mp h'))]
          exact Finmap.lookup_eq_none.mpr (fun h' => hk (hmem.mp h'))
      · intro r hr
        exact SecretHeap.dataOf_update_of_ne g r a _ (fun b hb => hr b a hb hq)

end MemoryLoops

section MemoryRefinement

variable {μ : Type}

/-- Whether two secrets share a map object depends on the structs only. -/
theorem SecretHeap.separate_of_secrets_eq {g g' : SecretHeap μ} (hs : g'.secrets = g.secrets)
    {r q : Addr} (h : g.separate r q) : g'.separate r q := by
  intro a b ha hb
  rw [hs] at ha hb
  exact h a b ha hb

/-- A secret reads the same map in two memories that agree on its struct and on the map
object its `Data` refers to. -/
theorem SecretHeap.dataOf_eq_of_agree (g g' : SecretHeap μ) (p : Addr)
    (hs : g'.secrets p = g.secrets p)
    (hm : ∀ a, (g.secrets p).Data = some a → g'.maps a = g.maps a) :
    g'.dataOf p = g.dataOf p := by
  unfold SecretHeap.dataOf
  rw [hs]
  cases hD : (g.secrets p).Data with
  | none => rfl
  | some a => exact hm a hD

/-- The copy made by `DeepCopy` has the fields of the object copied and a map with the same
entries, held in an object allocated by this call. -/
theorem SecretHeap.DeepCopy_content (h : SecretHeap μ) (p : Addr) :
    ((h.DeepCopy p).1.secrets h.nextSecret).ObjectMeta = (h.secrets p).ObjectMeta ∧
    ((h.DeepCopy p).1.secrets h.nextSecret).StringData = (h.secrets p).StringData ∧
    ((h.DeepCopy p).1.secrets h.nextSecret).Type_ = (h.secrets p).Type_ ∧
    (h.DeepCopy p).1.dataOf h.nextSecret = h.dataOf p ∧
    (∀ a, ((h.DeepCopy p).1.secrets h.nextSecret).Data = some a →
      a < (h.DeepCopy p).1.nextMap) := by
  unfold SecretHeap.DeepCopy SecretHeap.dataOf
  cases hD : (h.secrets p).Data with
  | none =>
    simp only [Function.update_same, hD]
    exact ⟨trivial, trivial, trivial, trivial, fun a ha => absurd ha (by simp)⟩
  | some a₀ =>
    simp only [Function.update_same]
    refine ⟨trivial, trivial, trivial, trivial, ?_⟩
    intro a ha
    rw [← Option.some.inj ha]
    exact Nat.lt_succ_self _

/-- An allocated secret refers to an allocated map object. -/
theorem SecretHeap.lt_of_allocated {h : SecretHeap μ} {p : Addr} (hp : h.allocated p = true) :
    p < h.nextSecret ∧ ∀ a, (h.secrets p).Data = some a → a < h.nextMap := by
  unfold SecretHeap.allocated at hp
  rw [Bool.and_eq_true, decide_eq_true_eq] at hp
  refine ⟨hp.1, ?_⟩
  intro a ha
  have h2 := hp.2
  rw [ha] at h2
  exact of_decide_eq_true h2

/-- The memory after the call, with the addresses of the two copies named. -/
theorem JSONPatchSecretNoError.onHeap_memory (Encode : Secret μ → Except String Bytes)
    (CreateMergePatch : Bytes → Bytes → Except String Bytes) (h : SecretHeap μ)
    (original modified safeModified safeOriginal : Addr)
    (hsm : (h.DeepCopy modified).2 = safeModified)
    (hso : ((h.DeepCopy modified).1.DeepCopy original).2 = safeOriginal) :
    (JSONPatchSecretNoError.onHeap Encode CreateMergePatch h (some original)
        (some modified)).2
      = Finmap.foldl (maskModifiedOnHeap original safeModified)
          (maskModifiedOnHeap_comm original safeModified)
          (Finmap.foldl (maskOriginalOnHeap safeOriginal)
            (maskOriginalOnHeap_comm safeOriginal)
            ((h.DeepCopy modified).1.DeepCopy original).1
            (((h.DeepCopy modified).1.DeepCopy original).1.dataOf safeOriginal))
          ((Finmap.foldl (maskOriginalOnHeap safeOriginal)
            (maskOriginalOnHeap_comm safeOriginal)
            ((h.DeepCopy modified).1.DeepCopy original).1
            (((h.DeepCopy modified).1.DeepCopy original).1.dataOf safeOriginal)).dataOf
              safeModified) := by
  subst hsm hso
  rfl

/-- What the two copies hold in memory when `JSONPatchNoError` is called is what the
value-level definition computes from the two arguments as they read before the call. -/
theorem JSONPatchSecretNoError.onHeap_copies (Encode : Secret μ → Except String Bytes)
    (CreateMergePatch : Bytes → Bytes → Except String Bytes) (h : SecretHeap μ)
    (original modified : Addr)
    (ho : h.allocated original = true) (hm : h.allocated modified = true) :
    (JSONPatchSecretNoError.onHeap Encode CreateMergePatch h (some original)
        (some modified)).2.read (h.nextSecret + 1)
      = (JSONPatchSecretNoError.vars (h.read original) (h.read modified)).safeOriginal ∧
    (JSONPatchSecretNoError.onHeap Encode CreateMergePatch h (some original)
        (some modified)).2.read h.nextSecret
      = (JSONPatchSecretNoError.vars (h.read original) (h.read modified)).safeModified := by
  obtain ⟨hoLt, hoData⟩ := SecretHeap.lt_of_allocated ho
  obtain ⟨hmLt, hmData⟩ := SecretHeap.lt_of_allocated hm
  -- the two deep copies
  obtain ⟨e₁, n₁, m₁, s₁, f₁, d₁⟩ := SecretHeap.DeepCopy_frame h modified
  obtain ⟨cM₁, cS₁, cT₁, cD₁, cL₁⟩ := SecretHeap.DeepCopy_content h modified
  obtain ⟨e₂, n₂, m₂, s₂, f₂, d₂⟩ := SecretHeap.DeepCopy_frame (h.DeepCopy modified).1 original
  obtain ⟨cM₂, cS₂, cT₂, cD₂, cL₂⟩ := SecretHeap.DeepCopy_content (h.DeepCopy modified).1 original
  rw [n₁] at e₂ cM₂ cS₂ cT₂ cD₂ cL₂ d₂
  have hfinal := JSONPatchSecretNoError.onHeap_memory Encode CreateMergePatch h original
    modified h.nextSecret (h.nextSecret + 1) e₁ e₂
  rw [hfinal]
  clear hfinal
  generalize hg₁ : (h.DeepCopy modified).1 = g₁ at *
  generalize hg₂ : (g₁.DeepCopy original).1 = g₂ at *
  -- the arguments and the first copy as they read in `g₂`
  have so₁ : g₁.secrets original = h.secrets original := s₁ original hoLt
  have so₂ : g₂.secrets original = h.secrets original :=
    (s₂ original (by rw [n₁]; exact Nat.lt_succ_of_lt hoLt)).trans so₁
  have ssm₂ : g₂.secrets h.nextSecret = g₁.secrets h.nextSecret :=
    s₂ h.nextSecret (by rw [n₁]; exact Nat.lt_succ_self _)
  have dO₁ : g₁.dataOf original = h.dataOf original :=
    SecretHeap.dataOf_eq_of_agree h g₁ original so₁ (fun a ha => f₁ a (hoData a ha))
  have dO₂ : g₂.dataOf original = h.dataOf original :=
    SecretHeap.dataOf_eq_of_agree h g₂ original so₂
      (fun a ha => (f₂ a (Nat.lt_of_lt_of_le (hoData a ha) m₁)).trans (f₁ a (hoData a ha)))
  have dSM₂ : g₂.dataOf h.nextSecret = h.dataOf modified :=
    (SecretHeap.dataOf_eq_of_agree g₁ g₂ h.nextSecret ssm₂ (fun a ha => f₂ a (cL₁ a ha))).trans cD₁
  have dSO₂ : g₂.dataOf (h.nextSecret + 1) = h.dataOf original := cD₂.trans dO₁
  -- no two of `original`, `safeModified`, `safeOriginal` share a map object
  have sepOSO : g₂.separate original (h.nextSecret + 1) := by
    intro a b ha hb
    rw [so₂] at ha
    exact Nat.ne_of_lt (Nat.lt_of_lt_of_le (Nat.lt_of_lt_of_le (hoData a ha) m₁) (d₂ b hb))
  have sepSMSO : g₂.separate h.nextSecret (h.nextSecret + 1) := by
    intro a b ha hb
    rw [ssm₂] at ha
    exact Nat.ne_of_lt (Nat.lt_of_lt_of_le (cL₁ a ha) (d₂ b hb))
  have sepOSM : g₂.separate original h.nextSecret := by
    intro a b ha hb
    rw [so₂] at ha
    rw [ssm₂] at hb
    exact Nat.ne_of_lt (Nat.lt_of_lt_of_le (hoData a ha) (d₁ b hb))
  have sepSOSM : g₂.separate (h.nextSecret + 1) h.nextSecret :=
    fun a b ha hb => (sepSMSO b a hb ha).symm
  -- the two loops
  obtain ⟨l₁s, l₁d, l₁f⟩ := foldl_maskOriginalOnHeap g₂ (h.nextSecret + 1)
  generalize hg₃ : Finmap.foldl (maskOriginalOnHeap (h.nextSecret + 1))
    (maskOriginalOnHeap_comm (h.nextSecret + 1)) g₂ (g₂.dataOf (h.nextSecret + 1)) = g₃ at *
  obtain ⟨l₂s, l₂d, l₂f⟩ := foldl_maskModifiedOnHeap g₃ original h.nextSecret
    (SecretHeap.separate_of_secrets_eq l₁s sepOSM)
  generalize hg₄ : Finmap.foldl (maskModifiedOnHeap original h.nextSecret)
    (maskModifiedOnHeap_comm original h.nextSecret) g₃ (g₃.dataOf h.nextSecret) = g₄ at *
  have s₄ : g₄.secrets = g₂.secrets := l₂s.trans l₁s
  -- the maps of the two copies, key by key
  have d₃SM : g₃.dataOf h.nextSecret = h.dataOf modified := (l₁f _ sepSMSO).trans dSM₂
  have d₃O : g₃.dataOf original = h.dataOf original := (l₁f _ sepOSO).trans dO₂
  have d₄SO : ∀ k, (g₄.dataOf (h.nextSecret + 1)).lookup k =
      if k ∈ h.dataOf original then some "OLD" else none := by
    intro k
    rw [l₂f _ (SecretHeap.separate_of_secrets_eq l₁s sepSOSM), l₁d k, dSO₂]
  have d₄SM : ∀ k, (g₄.dataOf h.nextSecret).lookup k =
      if k ∈ h.dataOf modified then
        some (modifiedToken (h.dataOf original) (h.dataOf modified) k) else none := by
    intro k
    rw [l₂d k, d₃SM, d₃O]
  -- compare with the value-level copies
  obtain ⟨DO, DM, hv, hDO, hDM⟩ :=
    JSONPatchSecretNoError.vars_eq (h.read original) (h.read modified)
  rw [hv]
  constructor
  · have hD : g₄.dataOf (h.nextSecret + 1) = DO :=
      Finmap.ext_lookup (fun k => (d₄SO k).trans (hDO k).symm)
    unfold SecretHeap.read
    rw [hD, s₄, cM₂, cS₂, cT₂, so₁]
  · have hD : g₄.dataOf h.nextSecret = DM :=
      Finmap.ext_lookup (fun k => (d₄SM k).trans (hDM k).symm)
    unfold SecretHeap.read
    rw [hD, s₄, ssm₂, cM₁, cS₁, cT₁]

/-- The string returned on memory is the string the value-level definition returns on the
two arguments as they read before the call. -/
theorem JSONPatchSecretNoError.onHeap_result (Encode : Secret μ → Except String Bytes)
    (CreateMergePatch : Bytes → Bytes → Except String Bytes) (h : SecretHeap μ)
    (original modified : Addr)
    (ho : h.allocated original = true) (hm : h.allocated modified = true) :
    (JSONPatchSecretNoError.onHeap Encode CreateMergePatch h (some original)
        (some modified)).1
      = JSONPatchSecretNoError Encode CreateMergePatch (some (h.read original))
        (some (h.read modified)) := by
  obtain ⟨hO, hM⟩ := JSONPatchSecretNoError.onHeap_copies Encode CreateMergePatch h
    original modified ho hm
  obtain ⟨e₁, n₁, _⟩ := SecretHeap.DeepCopy_frame h modified
  obtain ⟨e₂, _⟩ := SecretHeap.DeepCopy_frame (h.DeepCopy modified).1 original
  rw [n₁] at e₂
  show JSONPatchNoError Encode CreateMergePatch
      (some ((JSONPatchSecretNoError.onHeap Encode CreateMergePatch h (some original)
        (some modified)).2.read ((h.DeepCopy modified).1.DeepCopy original).2))
      (some ((JSONPatchSecretNoError.onHeap Encode CreateMergePatch h (some original)
        (some modified)).2.read (h.DeepCopy modified).2))
    = JSONPatchNoError Encode CreateMergePatch
      (some (JSONPatchSecretNoError.vars (h.read original) (h.read modified)).safeOriginal)
      (some (JSONPatchSecretNoError.vars (h.read original) (h.read modified)).safeModified)
  rw [e₂, e₁, hO, hM]

end MemoryRefinement

section RouteMemoryRefinement

variable {μ σ : Type}

/-- An allocated route refers to an allocated `TLSConfig` object. -/
theorem RouteHeap.lt_of_route_allocated {h : RouteHeap μ σ} {p : Addr}
    (hp : h.allocated p = true) :
    p < h.nextRoute ∧ ∀ a, (h.routes p).Spec.TLS = some a → a < h.nextTLS := by
  unfold RouteHeap.allocated at hp
  rw [Bool.and_eq_true, decide_eq_true_eq] at hp
  refine ⟨hp.1, ?_⟩
  intro a ha
  have h2 := hp.2
  rw [ha] at h2
  exact of_decide_eq_true h2

/-- What the two copies hold in memory when `JSONPatchNoError` is called is what the
value-level definition computes from the two arguments as they read before the call. -/
theorem JSONPatchRouteNoError.onHeap_route_copies (Encode : Route μ σ → Except String Bytes)
    (CreateMergePatch : Bytes → Bytes → Except String Bytes) (h : RouteHeap μ σ)
    (original modified : Addr)
    (ho : h.allocated original = true) (hm : h.allocated modified = true) :
    (JSONPatchRouteNoError.onHeap Encode CreateMergePatch h (some original)
        (some modified)).2.read (h.nextRoute + 1)
      = (JSONPatchRouteNoError.vars (h.read original) (h.read modified)).safeOriginal ∧
    (JSONPatchRouteNoError.onHeap Encode CreateMergePatch h (some original)
        (some modified)).2.read h.nextRoute
      = (JSONPatchRouteNoError.vars (h.read original) (h.read modified)).safeModified := by
  obtain ⟨hoLt, hoTLS⟩ := RouteHeap.lt_of_route_allocated ho
  obtain ⟨hmLt, hmTLS⟩ := RouteHeap.lt_of_route_allocated hm
  have ho₁ : original ≠ h.nextRoute := Nat.ne_of_lt hoLt
  have hm₁ : modified ≠ h.nextRoute := Nat.ne_of_lt hmLt
  have hn : h.nextRoute ≠ h.nextRoute + 1 := Nat.ne_of_lt (Nat.lt_succ_self _)
  have ht : h.nextTLS ≠ h.nextTLS + 1 := Nat.ne_of_lt (Nat.lt_succ_self _)
  cases hTO : (h.routes original).Spec.TLS with
  | none =>
    cases hTM : (h.routes modified).Spec.TLS with
    | none =>
      simp [JSONPatchRouteNoError.onHeap, RouteHeap.DeepCopy, JSONPatchRouteNoError.maskOnHeap,
        RouteHeap.read, RouteHeap.tlsOf, JSONPatchRouteNoError.vars, Route.DeepCopy,
        Function.update_apply, hTO, hTM, ho₁, hm₁, hn]
    | some am =>
      have ham : am ≠ h.nextTLS := Nat.ne_of_lt (hmTLS am hTM)
      simp [JSONPatchRouteNoError.onHeap, RouteHeap.DeepCopy, JSONPatchRouteNoError.maskOnHeap,
        RouteHeap.read, RouteHeap.tlsOf, JSONPatchRouteNoError.vars, Route.DeepCopy,
        Function.update_apply, hTO, hTM, ho₁, hm₁, hn, ham]
  | some ao =>
    have hao : ao ≠ h.nextTLS := Nat.ne_of_lt (hoTLS ao hTO)
    cases hTM : (h.routes modified).Spec.TLS with
    | none =>
      simp [JSONPatchRouteNoError.onHeap, RouteHeap.DeepCopy, JSONPatchRouteNoError.maskOnHeap,
        RouteHeap.assignKey, RouteHeap.read, RouteHeap.tlsOf, JSONPatchRouteNoError.vars,
        Route.DeepCopy, Route.assignTLSKey, Function.update_apply, hTO, hTM, ho₁, hm₁, hn, hao]
    | some am =>
      have ham : am ≠ h.nextTLS := Nat.ne_of_lt (hmTLS am hTM)
      have hao' : ao ≠ h.nextTLS + 1 :=
        Nat.ne_of_lt (Nat.lt_succ_of_lt (hoTLS ao hTO))
      by_cases hkey : (h.tls ao).Key = (h.tls am).Key
      · simp [JSONPatchRouteNoError.onHeap, RouteHeap.DeepCopy,
          JSONPatchRouteNoError.maskOnHeap, RouteHeap.assignKey, RouteHeap.read,
          RouteHeap.tlsOf, JSONPatchRouteNoError.vars, Route.DeepCopy, Route.assignTLSKey,
          Function.update_apply, hTO, hTM, ho₁, hm₁, hn, ht, hao, ham, hao', hkey]
      · simp [JSONPatchRouteNoError.onHeap, RouteHeap.DeepCopy,
          JSONPatchRouteNoError.maskOnHeap, RouteHeap.assignKey, RouteHeap.read,
          RouteHeap.tlsOf, JSONPatchRouteNoError.vars, Route.DeepCopy, Route.assignTLSKey,
          Function.update_apply, hTO, hTM, ho₁, hm₁, hn, ht, hao, ham, hao', hkey]

/-- The string returned on memory is the string the value-level definition returns on the
two arguments as they read before the call. -/
theorem JSONPatchRouteNoError.onHeap_route_result (Encode : Route μ σ → Except String Bytes)
    (CreateMergePatch : Bytes → Bytes → Except String Bytes) (h : RouteHeap μ σ)
    (original modified : Addr)
    (ho : h.allocated original = true) (hm : h.allocated modified = true) :
    (JSONPatchRouteNoError.onHeap Encode CreateMergePatch h (some original)
        (some modified)).1
      = JSONPatchRouteNoError Encode CreateMergePatch (some (h.read original))
        (some (h.read modified)) := by
  obtain ⟨hO, hM⟩ := JSONPatchRouteNoError.onHeap_route_copies Encode CreateMergePatch h
    original modified ho hm
  obtain ⟨e₁, n₁, _⟩ := RouteHeap.DeepCopy_route_frame h modified
  obtain ⟨e₂, _⟩ := RouteHeap.DeepCopy_route_frame (h.DeepCopy modified).1 original
  rw [n₁] at e₂
  show JSONPatchNoError Encode CreateMergePatch
      (some ((JSONPatchRouteNoError.onHeap Encode CreateMergePatch h (some original)
        (some modified)).2.read ((h.DeepCopy modified).1.DeepCopy original).2))
      (some ((JSONPatchRouteNoError.onHeap Encode CreateMergePatch h (some original)
        (some modified)).2.read (h.DeepCopy modified).2))
    = JSONPatchNoError Encode CreateMergePatch
      (some (JSONPatchRouteNoError.vars (h.read original) (h.read modified)).safeOriginal)
      (some (JSONPatchRouteNoError.vars (h.read original) (h.read modified)).safeModified)
  rw [e₂, e₁, hO, hM]

end RouteMemoryRefinement

/-! ## Claims -/

section Claims

variable {K μ σ : Type}

/-- C1 (evaluation at the failing input). When the original route has no TLS sub-structure
and the modified route has one, `JSONPatchRouteNoError` skips both assignments: the modified
safe copy handed to `JSONPatchNoError` still carries the modified route's raw key, which is
neither `TLS_KEY_MODIFIED` nor `TLS_KEY_MASKED`. -/
theorem C1_raw_key_reaches_diff_when_original_has_no_TLS :
    (JSONPatchRouteNoError.vars (sampleRoute none)
        (sampleRoute (some (sampleTLS "PRIVATE KEY")))).safeModified.tlsKey
      = some "PRIVATE KEY" ∧
    (sampleRoute (some (sampleTLS "PRIVATE KEY"))).tlsKey = some "PRIVATE KEY" ∧
    "PRIVATE KEY" ≠ tlsKeyModifiedMessage ∧ "PRIVATE KEY" ≠ tlsKeyMaskedMessage ∧
    JSONPatchRouteNoError sampleEncode samplePatch (some (sampleRoute none))
        (some (sampleRoute (some (sampleTLS "PRIVATE KEY"))))
      = JSONPatchNoError sampleEncode samplePatch (some (sampleRoute none))
        (some (sampleRoute (some (sampleTLS "PRIVATE KEY")))) := by
  decide

/-- C2 (counterexample). A secret whose value under `password` is the three bytes `OLD`:
the original safe copy stores `OLD` under `password`, which is a raw input value, so
"no Data value of either safe copy is a raw input value" fails. -/
theorem C2_counterexample :
    ¬ (∀ k v, (JSONPatchSecretNoError.vars
          (sampleSecret (Finmap.singleton "password" "OLD"))
          (sampleSecret (Finmap.singleton "password" "hunter2"))).safeOriginal.Data.lookup k
            = some v →
        ∀ k', (sampleSecret (Finmap.singleton "password" "OLD")).Data.lookup k' ≠ some v ∧
          (sampleSecret (Finmap.singleton "password" "hunter2")).Data.lookup k' ≠ some v) := by
  intro h
  exact (h "password" "OLD" (by decide) "password").1 (by decide)

/-- C2 (amended). For every pair of non-nil secrets, `JSONPatchSecretNoError` hands to
`JSONPatchNoError` two safe copies in which every Data value of the original copy is `OLD`
and every Data value of the modified copy is one of `OLD`, `NEW`, `MODIFIED`; a Data value
of a safe copy coincides with a raw input value only when that raw value is itself one of
these three tokens. -/
theorem C2_safe_copies_hold_only_tokens (Encode : Secret μ → Except String Bytes)
    (CreateMergePatch : Bytes → Bytes → Except String Bytes) (original modified : Secret μ) :
    JSONPatchSecretNoError Encode CreateMergePatch (some original) (some modified) =
      JSONPatchNoError Encode CreateMergePatch
        (some (JSONPatchSecretNoError.vars original modified).safeOriginal)
        (some (JSONPatchSecretNoError.vars original modified).safeModified) ∧
    (∀ k v, (JSONPatchSecretNoError.vars original modified).safeOriginal.Data.lookup k = some v →
      v = "OLD") ∧
    (∀ k v, (JSONPatchSecretNoError.vars original modified).safeModified.Data.lookup k = some v →
      v = "OLD" ∨ v = "NEW" ∨ v = "MODIFIED") ∧
    (∀ k v k', ((JSONPatchSecretNoError.vars original modified).safeOriginal.Data.lookup k = some v ∨
        (JSONPatchSecretNoError.vars original modified).safeModified.Data.lookup k = some v) →
      (original.Data.lookup k' = some v ∨ modified.Data.lookup k' = some v) →
      v = "OLD" ∨ v = "NEW" ∨ v = "MODIFIED") := by
  have hO : ∀ k v, (JSONPatchSecretNoError.vars original modified).safeOriginal.Data.lookup k
      = some v → v = "OLD" := by
    intro k v h
    rw [JSONPatchSecretNoError.lookup_safeOriginal] at h
    split_ifs at h
    exact (Option.some.inj h).symm
  have hM : ∀ k v, (JSONPatchSecretNoError.vars original modified).safeModified.Data.lookup k
      = some v → v = "OLD" ∨ v = "NEW" ∨ v = "MODIFIED" := by
    intro k v h
    rw [JSONPatchSecretNoError.lookup_safeModified] at h
    split_ifs at h
    rw [← Option.some.inj h]
    exact modifiedToken_cases _ _ _
  refine ⟨rfl, hO, hM, ?_⟩
  intro k v _ h _
  rcases h with h | h
  · exact Or.inl (hO k v h)
  · exact hM k v h

/-- C2 (witness): the amended claim at a two-key original and a three-key modified secret. -/
theorem C2_safe_copies_hold_only_tokens_witness :
    (JSONPatchSecretNoError.vars sampleOriginal sampleModified).safeModified.Data.lookup "b"
      = some "MODIFIED" ∧
    ("MODIFIED" = "OLD" ∨ "MODIFIED" = "NEW" ∨ "MODIFIED" = "MODIFIED") :=
  ⟨by decide,
   (C2_safe_copies_hold_only_tokens sampleEncode samplePatch sampleOriginal sampleModified).2.2.1
      "b" "MODIFIED" (by decide)⟩

/-- C3. For every pair of non-nil secrets and every key `k` of the modified secret's Data,
the modified safe copy maps `k` to `NEW` exactly when `k` is not a key of the original's
Data, to `MODIFIED` exactly when `k` is a key of the original's Data whose value there
differs from the modified's value, and to `OLD` exactly when `k` is a key of both with equal
values; the values compared are those of the caller's `original` and `modified`. -/
theorem C3_modified_copy_classifies_each_key (original modified : Secret μ) (k : String)
    (hk : k ∈ modified.Data) :
    ((JSONPatchSecretNoError.vars original modified).safeModified.Data.lookup k = some "NEW" ↔
      k ∉ original.Data) ∧
    ((JSONPatchSecretNoError.vars original modified).safeModified.Data.lookup k
        = some "MODIFIED" ↔
      k ∈ original.Data ∧ original.Data.lookup k ≠ modified.Data.lookup k) ∧
    ((JSONPatchSecretNoError.vars original modified).safeModified.Data.lookup k = some "OLD" ↔
      k ∈ original.Data ∧ original.Data.lookup k = modified.Data.lookup k) := by
  rw [JSONPatchSecretNoError.lookup_safeModified, if_pos hk]
  obtain ⟨b, hb⟩ := Finmap.mem_iff.mp hk
  by_cases ho : k ∈ original.Data
  · obtain ⟨a, ha⟩ := Finmap.mem_iff.mp ho
    rw [modifiedToken_of_lookup ha hb, ha, hb]
    by_cases hab : a = b
    · subst hab
      simp only [if_true, ho, ne_eq, not_true_eq_false, and_false, and_self, iff_true,
        iff_false, not_not]
      exact ⟨by decide, by decide, trivial⟩
    · have hne : (some a : Option Bytes) ≠ some b := fun h => hab (Option.some.inj h)
      simp only [if_neg hab, ho, ne_eq, hne, not_false_eq_true, and_self, and_false,
        iff_true, iff_false, not_true_eq_false]
      exact ⟨by decide, trivial, by decide⟩
  · rw [modifiedToken_of_not_mem ho]
    simp only [ho, not_false_eq_true, false_and, iff_true, iff_false]
    exact ⟨trivial, by decide, by decide⟩

/-- C3 (witness): key `b`, present in both secrets with different values. -/
theorem C3_modified_copy_classifies_each_key_witness :
    "b" ∈ sampleModified.Data ∧
    (JSONPatchSecretNoError.vars sampleOriginal sampleModified).safeModified.Data.lookup "b"
      = some "MODIFIED" := by
  have hk : "b" ∈ sampleModified.Data := by decide
  have ho : "b" ∈ sampleOriginal.Data := by decide
  have hne : sampleOriginal.Data.lookup "b" ≠ sampleModified.Data.lookup "b" := by decide
  exact ⟨hk, (C3_modified_copy_classifies_each_key sampleOriginal sampleModified "b"
    hk).2.1.mpr ⟨ho, hne⟩⟩

/-- C4. For each of `JSONPatchNoError`, `JSONPatchSecretNoError` and `JSONPatchRouteNoError`:
a nil original gives exactly "original object is nil" whatever the modified argument is, and a
non-nil original with a nil modified gives exactly "modified object is nil"; this holds for
every encoder and every patch engine, neither of which is consulted. -/
theorem C4_nil_arguments (EncodeK : K → Except String Bytes)
    (EncodeSecret : Secret μ → Except String Bytes)
    (EncodeRoute : Route μ σ → Except String Bytes)
    (CreateMergePatch : Bytes → Bytes → Except String Bytes) :
    (∀ modified, JSONPatchNoError EncodeK CreateMergePatch none modified
      = "original object is nil") ∧
    (∀ original, JSONPatchNoError EncodeK CreateMergePatch (some original) none
      = "modified object is nil") ∧
    (∀ modified, JSONPatchSecretNoError EncodeSecret CreateMergePatch none modified
      = "original object is nil") ∧
    (∀ original, JSONPatchSecretNoError EncodeSecret CreateMergePatch (some original) none
      = "modified object is nil") ∧
    (∀ modified, JSONPatchRouteNoError EncodeRoute CreateMergePatch none modified
      = "original object is nil") ∧
    (∀ original, JSONPatchRouteNoError EncodeRoute CreateMergePatch (some original) none
      = "modified object is nil") :=
  ⟨fun _ => rfl, fun _ => rfl, fun _ => rfl, fun _ => rfl, fun _ => rfl, fun _ => rfl⟩

/-- C5 (counterexample). With a nil original and a non-nil modified object the result is not
"modified object is nil", and with a non-nil original and a nil modified object it is not
"original object is nil": the two messages of the claim are interchanged. -/
theorem C5_counterexample :
    JSONPatchNoError (sampleEncode : Unit → Except String Bytes) samplePatch none (some ())
      ≠ "modified object is nil" ∧
    JSONPatchNoError (sampleEncode : Unit → Except String Bytes) samplePatch (some ()) none
      ≠ "original object is nil" := by
  decide

/-- C5 (amended). For every non-nil object `X`, `JSONPatchNoError(nil, X)` returns
"original object is nil" and `JSONPatchNoError(X, nil)` returns "modified object is nil". -/
theorem C5_nil_messages_name_the_nil_argument (Encode : K → Except String Bytes)
    (CreateMergePatch : Bytes → Bytes → Except String Bytes) (X : K) :
    JSONPatchNoError Encode CreateMergePatch none (some X) = "original object is nil" ∧
    JSONPatchNoError Encode CreateMergePatch (some X) none = "modified object is nil" :=
  ⟨rfl, rfl⟩

/-- C6. For every pair of non-nil routes that both have a TLS sub-structure, the original
safe copy's TLS key is `TLS_KEY_MASKED`, the modified safe copy's TLS key is
`TLS_KEY_MODIFIED` if and only if the two raw keys differ and `TLS_KEY_MASKED` if and only
if they are equal; hence the two safe copies' TLS keys are equal if and only if the raw keys
are equal. -/
theorem C6_tls_keys_masked_when_both_have_TLS (Encode : Route μ σ → Except String Bytes)
    (CreateMergePatch : Bytes → Bytes → Except String Bytes)
    (original modified : Route μ σ) (originalTLS modifiedTLS : TLSConfig)
    (ho : original.Spec.TLS = some originalTLS) (hm : modified.Spec.TLS = some modifiedTLS) :
    JSONPatchRouteNoError Encode CreateMergePatch (some original) (some modified) =
      JSONPatchNoError Encode CreateMergePatch
        (some (JSONPatchRouteNoError.vars original modified).safeOriginal)
        (some (JSONPatchRouteNoError.vars original modified).safeModified) ∧
    (JSONPatchRouteNoError.vars original modified).safeOriginal.tlsKey
      = some "TLS_KEY_MASKED" ∧
    ((JSONPatchRouteNoError.vars original modified).safeModified.tlsKey
        = some "TLS_KEY_MODIFIED" ↔ originalTLS.Key ≠ modifiedTLS.Key) ∧
    ((JSONPatchRouteNoError.vars original modified).safeModified.tlsKey
        = some "TLS_KEY_MASKED" ↔ originalTLS.Key = modifiedTLS.Key) ∧
    ((JSONPatchRouteNoError.vars original modified).safeOriginal.tlsKey
        = (JSONPatchRouteNoError.vars original modified).safeModified.tlsKey ↔
      originalTLS.Key = modifiedTLS.Key) := by
  have hne : ("TLS_KEY_MODIFIED" : String) ≠ "TLS_KEY_MASKED" := by decide
  refine ⟨rfl, ?_⟩
  by_cases hkey : originalTLS.Key = modifiedTLS.Key
  · simp [JSONPatchRouteNoError.vars, Route.DeepCopy, Route.assignTLSKey, Route.tlsKey, ho, hm,
      hkey, tlsKeyMaskedMessage, tlsKeyModifiedMessage, hne.symm]
  · simp [JSONPatchRouteNoError.vars, Route.DeepCopy, Route.assignTLSKey, Route.tlsKey, ho, hm,
      hkey, tlsKeyMaskedMessage, tlsKeyModifiedMessage, hne, hne.symm]

/-- C6 (witness): two routes with TLS sub-structures whose keys differ. -/
theorem C6_tls_keys_masked_when_both_have_TLS_witness :
    (JSONPatchRouteNoError.vars (sampleRoute (some (sampleTLS "KEY ONE")))
        (sampleRoute (some (sampleTLS "KEY TWO")))).safeOriginal.tlsKey
      = some "TLS_KEY_MASKED" ∧
    (JSONPatchRouteNoError.vars (sampleRoute (some (sampleTLS "KEY ONE")))
        (sampleRoute (some (sampleTLS "KEY TWO")))).safeModified.tlsKey
      = some "TLS_KEY_MODIFIED" := by
  have h := C6_tls_keys_masked_when_both_have_TLS sampleEncode samplePatch
    (sampleRoute (some (sampleTLS "KEY ONE"))) (sampleRoute (some (sampleTLS "KEY TWO")))
    (sampleTLS "KEY ONE") (sampleTLS "KEY TWO") rfl rfl
  exact ⟨h.2.1, h.2.2.1.mpr (by decide)⟩

/-- C7. For every pair of non-nil secrets the redaction preserves key sets: the original
safe copy's Data has the keys of the original's Data and the modified safe copy's Data has
the keys of the modified's Data; in particular a key present only in the original is mapped
to `OLD` in the original safe copy and is absent from the modified safe copy. -/
theorem C7_key_sets_preserved (original modified : Secret μ) :
    (JSONPatchSecretNoError.vars original modified).safeOriginal.Data.keys
      = original.Data.keys ∧
    (JSONPatchSecretNoError.vars original modified).safeModified.Data.keys
      = modified.Data.keys ∧
    (∀ k, k ∈ original.Data → k ∉ modified.Data →
      (JSONPatchSecretNoError.vars original modified).safeOriginal.Data.lookup k = some "OLD" ∧
      (JSONPatchSecretNoError.vars original modified).safeModified.Data.lookup k = none ∧
      k ∉ (JSONPatchSecretNoError.vars original modified).safeModified.Data) := by
  refine ⟨?_, ?_, ?_⟩
  · ext k
    rw [Finmap.mem_keys, Finmap.mem_keys, ← Finmap.lookup_isSome,
      JSONPatchSecretNoError.lookup_safeOriginal]
    by_cases h : k ∈ original.Data <;> simp [h]
  · ext k
    rw [Finmap.mem_keys, Finmap.mem_keys, ← Finmap.lookup_isSome,
      JSONPatchSecretNoError.lookup_safeModified]
    by_cases h : k ∈ modified.Data <;> simp [h]
  · intro k ho hm
    have hnone : (JSONPatchSecretNoError.vars original modified).safeModified.Data.lookup k
        = none := by
      rw [JSONPatchSecretNoError.lookup_safeModified, if_neg hm]
    refine ⟨?_, hnone, Finmap.lookup_eq_none.mp hnone⟩
    rw [JSONPatchSecretNoError.lookup_safeOriginal, if_pos ho]

/-- C7 (witness): key `b` removed between the two versions. -/
theorem C7_key_sets_preserved_witness :
    "b" ∈ (sampleSecret ((Finmap.singleton "a" "x").insert "b" "y")).Data ∧
    "b" ∉ (sampleSecret (Finmap.singleton "a" "x")).Data ∧
    (JSONPatchSecretNoError.vars (sampleSecret ((Finmap.singleton "a" "x").insert "b" "y"))
        (sampleSecret (Finmap.singleton "a" "x"))).safeOriginal.Data.lookup "b" = some "OLD" ∧
    (JSONPatchSecretNoError.vars (sampleSecret ((Finmap.singleton "a" "x").insert "b" "y"))
        (sampleSecret (Finmap.singleton "a" "x"))).safeModified.Data.lookup "b" = none := by
  have ho : "b" ∈ (sampleSecret ((Finmap.singleton "a" "x").insert "b" "y")).Data := by decide
  have hm : "b" ∉ (sampleSecret (Finmap.singleton "a" "x")).Data := by decide
  have h := (C7_key_sets_preserved (sampleSecret ((Finmap.singleton "a" "x").insert "b" "y"))
    (sampleSecret (Finmap.singleton "a" "x"))).2.2 "b" ho hm
  exact ⟨ho, hm, h.1, h.2.1⟩

/-- C8. Invariant I3 for secrets: for every pair of non-nil secrets and every key `k`, the
optional entry for `k` in the original safe copy's Data differs from the optional entry for
`k` in the modified safe copy's Data if and only if the optional entry for `k` in the
original's Data differs from the optional entry for `k` in the modified's Data (an absent
key being `none`, distinct from every present value). -/
theorem C8_token_entries_differ_iff_raw_entries_differ (original modified : Secret μ)
    (k : String) :
    (JSONPatchSecretNoError.vars original modified).safeOriginal.Data.lookup k
        ≠ (JSONPatchSecretNoError.vars original modified).safeModified.Data.lookup k ↔
      original.Data.lookup k ≠ modified.Data.lookup k := by
  rw [JSONPatchSecretNoError.lookup_safeOriginal, JSONPatchSecretNoError.lookup_safeModified]
  by_cases ho : k ∈ original.Data <;> by_cases hm : k ∈ modified.Data
  · obtain ⟨a, ha⟩ := Finmap.mem_iff.mp ho
    obtain ⟨b, hb⟩ := Finmap.mem_iff.mp hm
    rw [if_pos ho, if_pos hm, modifiedToken_of_lookup ha hb, ha, hb]
    by_cases hab : a = b
    · simp [hab]
    · have hne : (some a : Option Bytes) ≠ some b := fun h => hab (Option.some.inj h)
      simp only [if_neg hab, ne_eq, hne, not_false_eq_true, iff_true]
      decide
  · obtain ⟨a, ha⟩ := Finmap.mem_iff.mp ho
    rw [if_pos ho, if_neg hm, ha, Finmap.lookup_eq_none.mpr hm]
    simp
  · obtain ⟨b, hb⟩ := Finmap.mem_iff.mp hm
    rw [if_neg ho, if_pos hm, hb, Finmap.lookup_eq_none.mpr ho]
    simp
  · rw [if_neg ho, if_neg hm, Finmap.lookup_eq_none.mpr ho, Finmap.lookup_eq_none.mpr hm]

/-- C9 (counterexample). A secret whose value under `token` is empty, changed to `hunter2`:
a Data value differs, and whatever the encoder and the patch engine are, the returned string
contains a substring equal to the original's raw value (the empty byte string), so no
encoder and patch engine make the claim true at this input. -/
theorem C9_counterexample :
    ¬ ∃ (Encode : Secret Unit → Except String Bytes)
        (CreateMergePatch : Bytes → Bytes → Except String Bytes),
      (∃ k, (sampleSecret (Finmap.singleton "token" "")).Data.lookup k
          ≠ (sampleSecret (Finmap.singleton "token" "hunter2")).Data.lookup k) →
      ∀ k v, ((sampleSecret (Finmap.singleton "token" "")).Data.lookup k = some v ∨
          (sampleSecret (Finmap.singleton "token" "hunter2")).Data.lookup k = some v) →
        ¬ occursIn v (JSONPatchSecretNoError Encode CreateMergePatch
          (some (sampleSecret (Finmap.singleton "token" "")))
          (some (sampleSecret (Finmap.singleton "token" "hunter2")))) := by
  rintro ⟨Encode, CreateMergePatch, h⟩
  exact h ⟨"token", by decide⟩ "token" "" (Or.inl (by decide)) List.nil_infix

/-- C9 (amended). For every pair of non-nil secrets, the string returned by
`JSONPatchSecretNoError` carries none of the raw byte content of the Data values: replacing
every Data value `v` of the original and of the modified secret by `f v`, for any injective
`f`, and keeping all other fields, leaves the returned string unchanged. -/
theorem C9_output_unchanged_by_relabelling_values (Encode : Secret μ → Except String Bytes)
    (CreateMergePatch : Bytes → Bytes → Except String Bytes)
    (original modified original' modified' : Secret μ) (f : Bytes → Bytes)
    (hf : Function.Injective f)
    (ho : original'.ObjectMeta = original.ObjectMeta ∧
      original'.StringData = original.StringData ∧ original'.Type_ = original.Type_)
    (hoData : ∀ k, original'.Data.lookup k = (original.Data.lookup k).map f)
    (hm : modified'.ObjectMeta = modified.ObjectMeta ∧
      modified'.StringData = modified.StringData ∧ modified'.Type_ = modified.Type_)
    (hmData : ∀ k, modified'.Data.lookup k = (modified.Data.lookup k).map f) :
    JSONPatchSecretNoError Encode CreateMergePatch (some original') (some modified')
      = JSONPatchSecretNoError Encode CreateMergePatch (some original) (some modified) := by
  have keys : ∀ (s s' : Secret μ), (∀ k, s'.Data.lookup k = (s.Data.lookup k).map f) →
      ∀ k, k ∈ s'.Data ↔ k ∈ s.Data := by
    intro s s' h k
    rw [← Finmap.lookup_isSome, ← Finmap.lookup_isSome, h k, Option.isSome_map']
  apply JSONPatchSecretNoError.eq_of_safe_copies
  apply JSONPatchSecretNoError.safe_copies_congr original' modified' original modified
    ho.1 ho.2.1 ho.2.2 hm.1 hm.2.1 hm.2.2 (keys _ _ hoData) (keys _ _ hmData)
  intro k _ _
  rw [hoData k, hmData k]
  exact (Option.map_injective hf).eq_iff

/-- C9 (witness): the value `x` changed to `y`, relabelled by appending `!`; the encoder
and patch engine print what they are given, and the output is the same. -/
theorem C9_output_unchanged_by_relabelling_values_witness :
    Function.Injective (fun s : String => s ++ "!") ∧
    JSONPatchSecretNoError printingEncode printingPatch
        (some (sampleSecret (Finmap.singleton "password" "x!")))
        (some (sampleSecret (Finmap.singleton "password" "y!")))
      = JSONPatchSecretNoError printingEncode printingPatch
        (some (sampleSecret (Finmap.singleton "password" "x")))
        (some (sampleSecret (Finmap.singleton "password" "y"))) ∧
    JSONPatchSecretNoError printingEncode printingPatch
        (some (sampleSecret (Finmap.singleton "password" "x")))
        (some (sampleSecret (Finmap.singleton "password" "y")))
      = "password=OLD -> password=MODIFIED" := by
  refine ⟨append_bang_injective, ?_, by decide⟩
  refine C9_output_unchanged_by_relabelling_values printingEncode printingPatch
    (sampleSecret (Finmap.singleton "password" "x"))
    (sampleSecret (Finmap.singleton "password" "y"))
    (sampleSecret (Finmap.singleton "password" "x!"))
    (sampleSecret (Finmap.singleton "password" "y!"))
    (fun s => s ++ "!") append_bang_injective ⟨rfl, rfl, rfl⟩ ?_ ⟨rfl, rfl, rfl⟩ ?_
  · intro k
    simp only [sampleSecret, DataMap.lookup_singleton]
    by_cases h : k = "password"
    · rw [if_pos h, if_pos h]; rfl
    · rw [if_neg h, if_neg h]; rfl
  · intro k
    simp only [sampleSecret, DataMap.lookup_singleton]
    by_cases h : k = "password"
    · rw [if_pos h, if_pos h]; rfl
    · rw [if_neg h, if_neg h]; rfl

/-- C10. For every pair of non-nil objects, `JSONPatchNoError` equals the reference
definition over the two encodings and the patch engine: "unable to decode original to JSON: "
followed by the cause when encoding the original fails (whatever the modified object is),
else "unable to decode modified to JSON: " followed by the cause when encoding the modified
fails, else "unable to create JSON patch: " followed by the cause when the merge patch
fails, else the patch bytes as a string. -/
theorem C10_JSONPatchNoError_eq_reference (Encode : K → Except String Bytes)
    (CreateMergePatch : Bytes → Bytes → Except String Bytes) (original modified : K) :
    JSONPatchNoError Encode CreateMergePatch (some original) (some modified)
      = JSONPatchNoError.reference (Encode original) (Encode modified) CreateMergePatch ∧
    (∀ e, Encode original = .error e → ∀ modified' : K,
      JSONPatchNoError Encode CreateMergePatch (some original) (some modified')
        = "unable to decode original to JSON: " ++ e) := by
  constructor
  · unfold JSONPatchNoError JSONPatchNoError.reference
    dsimp only
    cases Encode original with
    | error e => rfl
    | ok originalJSON =>
      cases Encode modified with
      | error e => rfl
      | ok modifiedJSON => rfl
  · intro e he modified'
    unfold JSONPatchNoError
    simp only [he]

/-- C10 (witness): an encoder failing with cause `boom`. -/
theorem C10_JSONPatchNoError_eq_reference_witness :
    JSONPatchNoError (failingEncode "boom" : Unit → Except String Bytes) samplePatch
        (some ()) (some ())
      = "unable to decode original to JSON: boom" :=
  (C10_JSONPatchNoError_eq_reference (failingEncode "boom" : Unit → Except String Bytes)
    samplePatch () ()).2 "boom" rfl ()

/-- C11. For all failure causes `e₁` and `e₂`, the string `JSONPatchNoError` returns when
encoding of the original fails with `e₁` is different from the string it returns when
encoding of the modified fails with `e₂`; the former contains "original" and the latter
contains "modified". -/
theorem C11_encoding_failures_are_distinguishable
    (Encode₁ Encode₂ : K → Except String Bytes)
    (CreateMergePatch₁ CreateMergePatch₂ : Bytes → Bytes → Except String Bytes)
    (original₁ modified₁ original₂ modified₂ : K) (e₁ e₂ : String) (originalJSON : Bytes)
    (h₁ : Encode₁ original₁ = .error e₁)
    (h₂ : Encode₂ original₂ = .ok originalJSON) (h₂' : Encode₂ modified₂ = .error e₂) :
    JSONPatchNoError Encode₁ CreateMergePatch₁ (some original₁) (some modified₁)
      ≠ JSONPatchNoError Encode₂ CreateMergePatch₂ (some original₂) (some modified₂) ∧
    occursIn "original"
      (JSONPatchNoError Encode₁ CreateMergePatch₁ (some original₁) (some modified₁)) ∧
    occursIn "modified"
      (JSONPatchNoError Encode₂ CreateMergePatch₂ (some original₂) (some modified₂)) := by
  have r₁ : JSONPatchNoError Encode₁ CreateMergePatch₁ (some original₁) (some modified₁)
      = "unable to decode original to JSON: " ++ e₁ := by
    unfold JSONPatchNoError; simp only [h₁]
  have r₂ : JSONPatchNoError Encode₂ CreateMergePatch₂ (some original₂) (some modified₂)
      = "unable to decode modified to JSON: " ++ e₂ := by
    unfold JSONPatchNoError; simp only [h₂, h₂']
  rw [r₁, r₂]
  exact ⟨append_ne_of_ne_of_length_eq (by decide) (by decide) e₁ e₂,
    occursIn_append_right e₁ (by decide), occursIn_append_right e₂ (by decide)⟩

/-- C11 (witness): both failures with the same cause `boom`. -/
theorem C11_encoding_failures_are_distinguishable_witness :
    JSONPatchNoError (failingEncode "boom" : Bool → Except String Bytes) samplePatch
        (some true) (some false)
      ≠ JSONPatchNoError (fun b : Bool => if b then .ok "json" else .error "boom") samplePatch
        (some true) (some false) :=
  (C11_encoding_failures_are_distinguishable (failingEncode "boom")
    (fun b : Bool => if b then .ok "json" else .error "boom") samplePatch samplePatch
    true false true false "boom" "boom" "json" rfl rfl rfl).1

/-- C12. For every non-nil object `X` that the encoder encodes successfully,
`JSONPatchNoError(X, X)` returns the empty patch `{}`, given a patch engine that returns
the empty patch for byte-identical inputs (the encoder, a function, is deterministic). -/
theorem C12_identical_objects_give_empty_patch (Encode : K → Except String Bytes)
    (CreateMergePatch : Bytes → Bytes → Except String Bytes) (X : K) (encoded : Bytes)
    (hX : Encode X = .ok encoded)
    (hpatch : ∀ b, CreateMergePatch b b = .ok "\x7b\x7d") :
    JSONPatchNoError Encode CreateMergePatch (some X) (some X) = "\x7b\x7d" := by
  unfold JSONPatchNoError
  simp only [hX, hpatch]

/-- C12 (witness): an encoder that always succeeds and a patch engine that compares. -/
theorem C12_identical_objects_give_empty_patch_witness :
    JSONPatchNoError (sampleEncode : Unit → Except String Bytes) comparingPatch
      (some ()) (some ()) = "\x7b\x7d" :=
  C12_identical_objects_give_empty_patch sampleEncode comparingPatch () "json" rfl
    (fun b => by simp [comparingPatch])

/-- C13. For every pair of non-nil routes, a version whose TLS sub-structure is absent still
has it absent in its safe copy; and when neither route has a TLS sub-structure both safe
copies equal their inputs, so `JSONPatchRouteNoError` returns what `JSONPatchNoError` returns
on the inputs themselves and neither redaction token appears as a TLS key. -/
theorem C13_absent_TLS_stays_absent (Encode : Route μ σ → Except String Bytes)
    (CreateMergePatch : Bytes → Bytes → Except String Bytes)
    (original modified : Route μ σ) :
    (original.Spec.TLS = none →
      (JSONPatchRouteNoError.vars original modified).safeOriginal.Spec.TLS = none) ∧
    (modified.Spec.TLS = none →
      (JSONPatchRouteNoError.vars original modified).safeModified.Spec.TLS = none) ∧
    (original.Spec.TLS = none → modified.Spec.TLS = none →
      (JSONPatchRouteNoError.vars original modified).safeOriginal = original ∧
      (JSONPatchRouteNoError.vars original modified).safeModified = modified ∧
      JSONPatchRouteNoError Encode CreateMergePatch (some original) (some modified)
        = JSONPatchNoError Encode CreateMergePatch (some original) (some modified) ∧
      (JSONPatchRouteNoError.vars original modified).safeOriginal.tlsKey = none ∧
      (JSONPatchRouteNoError.vars original modified).safeModified.tlsKey = none) := by
  refine ⟨?_, ?_, ?_⟩
  · intro ho
    rw [(JSONPatchRouteNoError.vars_of_original_without_TLS original modified ho).1, ho]
  · intro hm
    obtain ⟨mMeta, mOther, mTLS⟩ := modified
    simp only at hm
    subst hm
    cases hTLS : original.Spec.TLS with
    | none =>
      rw [(JSONPatchRouteNoError.vars_of_original_without_TLS original _ hTLS).2]
    | some originalTLS =>
      simp [JSONPatchRouteNoError.vars, Route.DeepCopy, hTLS]
  · intro ho hm
    obtain ⟨hO, hM⟩ := JSONPatchRouteNoError.vars_of_original_without_TLS original modified ho
    refine ⟨hO, hM, ?_, ?_, ?_⟩
    · show JSONPatchNoError Encode CreateMergePatch
          (some (JSONPatchRouteNoError.vars original modified).safeOriginal)
          (some (JSONPatchRouteNoError.vars original modified).safeModified) = _
      rw [hO, hM]
    · rw [hO, Route.tlsKey, ho]; rfl
    · rw [hM, Route.tlsKey, hm]; rfl

/-- C13 (witness): two routes without a TLS sub-structure. -/
theorem C13_absent_TLS_stays_absent_witness :
    (JSONPatchRouteNoError.vars (sampleRoute none) (sampleRoute none)).safeOriginal
      = sampleRoute none ∧
    (JSONPatchRouteNoError.vars (sampleRoute none) (sampleRoute none)).safeModified
      = sampleRoute none := by
  have h := (C13_absent_TLS_stays_absent sampleEncode samplePatch (sampleRoute none)
    (sampleRoute none)).2.2 rfl rfl
  exact ⟨h.1, h.2.1⟩

/-- C14. Invariant I1: `JSONPatchSecretNoError` and `JSONPatchRouteNoError` never alter their
inputs. With the objects held in a memory of structs, map objects and `TLSConfig` objects
reached through references, after the call (whatever the arguments, nil, distinct or aliases
of each other) every struct, map object and `TLSConfig` object that was allocated before the
call holds what it held before; hence every secret and route the caller could pass, and in
particular `original` and `modified`, reads the same after the call as before (each Data
entry of a secret, `Spec.TLS` and its `Key` of a route): all writes went to the objects
allocated by the two deep copies. The string returned is the one computed from the
arguments as they read before the call. -/
theorem C14_callers_objects_unchanged_in_memory :
    (∀ (Encode : Secret μ → Except String Bytes)
        (CreateMergePatch : Bytes → Bytes → Except String Bytes) (h : SecretHeap μ)
        (original modified : Option Addr),
      (∀ p, p < h.nextSecret →
        (JSONPatchSecretNoError.onHeap Encode CreateMergePatch h original modified).2.secrets p
          = h.secrets p) ∧
      (∀ a, a < h.nextMap →
        (JSONPatchSecretNoError.onHeap Encode CreateMergePatch h original modified).2.maps a
          = h.maps a) ∧
      (∀ p, h.allocated p = true →
        (JSONPatchSecretNoError.onHeap Encode CreateMergePatch h original modified).2.read p
          = h.read p) ∧
      (∀ o m, original = some o → modified = some m →
        h.allocated o = true → h.allocated m = true →
        (JSONPatchSecretNoError.onHeap Encode CreateMergePatch h original modified).1
          = JSONPatchSecretNoError Encode CreateMergePatch (some (h.read o))
            (some (h.read m)))) ∧
    (∀ (Encode : Route μ σ → Except String Bytes)
        (CreateMergePatch : Bytes → Bytes → Except String Bytes) (h : RouteHeap μ σ)
        (original modified : Option Addr),
      (∀ p, p < h.nextRoute →
        (JSONPatchRouteNoError.onHeap Encode CreateMergePatch h original modified).2.routes p
          = h.routes p) ∧
      (∀ a, a < h.nextTLS →
        (JSONPatchRouteNoError.onHeap Encode CreateMergePatch h original modified).2.tls a
          = h.tls a) ∧
      (∀ p, h.allocated p = true →
        (JSONPatchRouteNoError.onHeap Encode CreateMergePatch h original modified).2.read p
          = h.read p) ∧
      (∀ o m, original = some o → modified = some m →
        h.allocated o = true → h.allocated m = true →
        (JSONPatchRouteNoError.onHeap Encode CreateMergePatch h original modified).1
          = JSONPatchRouteNoError Encode CreateMergePatch (some (h.read o))
            (some (h.read m)))) := by
  constructor
  · intro Encode CreateMergePatch h original modified
    have hframe : (∀ p, p < h.nextSecret →
        (JSONPatchSecretNoError.onHeap Encode CreateMergePatch h original modified).2.secrets p
          = h.secrets p) ∧
        (∀ a, a < h.nextMap →
        (JSONPatchSecretNoError.onHeap Encode CreateMergePatch h original modified).2.maps a
          = h.maps a) := by
      cases original with
      | none => exact ⟨fun _ _ => rfl, fun _ _ => rfl⟩
      | some o =>
        cases modified with
        | none => exact ⟨fun _ _ => rfl, fun _ _ => rfl⟩
        | some m => exact JSONPatchSecretNoError.onHeap_frame Encode CreateMergePatch h o m
    refine ⟨hframe.1, hframe.2,
      fun p hp => SecretHeap.read_eq_of_frame h _ p hp hframe.1 hframe.2, ?_⟩
    intro o m ho hm hao ham
    subst ho hm
    exact JSONPatchSecretNoError.onHeap_result Encode CreateMergePatch h o m hao ham
  · intro Encode CreateMergePatch h original modified
    have hframe : (∀ p, p < h.nextRoute →
        (JSONPatchRouteNoError.onHeap Encode CreateMergePatch h original modified).2.routes p
          = h.routes p) ∧
        (∀ a, a < h.nextTLS →
        (JSONPatchRouteNoError.onHeap Encode CreateMergePatch h original modified).2.tls a
          = h.tls a) := by
      cases original with
      | none => exact ⟨fun _ _ => rfl, fun _ _ => rfl⟩
      | some o =>
        cases modified with
        | none => exact ⟨fun _ _ => rfl, fun _ _ => rfl⟩
        | some m => exact JSONPatchRouteNoError.onHeap_route_frame Encode CreateMergePatch h o m
    refine ⟨hframe.1, hframe.2,
      fun p hp => RouteHeap.read_route_eq_of_frame h _ p hp hframe.1 hframe.2, ?_⟩
    intro o m ho hm hao ham
    subst ho hm
    exact JSONPatchRouteNoError.onHeap_route_result Encode CreateMergePatch h o m hao ham

/-- C14 (witness): the secrets at addresses 0 and 1 of `sampleSecretHeap` read the same
after the call as before, while the two copies at addresses 3 and 2 hold the tokens; and
the secret of `aliasedSecretHeap`, passed as both arguments, reads the same after the call. -/
theorem C14_callers_objects_unchanged_in_memory_witness :
    sampleSecretHeap.allocated 0 = true ∧ sampleSecretHeap.allocated 1 = true ∧
    (JSONPatchSecretNoError.onHeap sampleEncode samplePatch sampleSecretHeap
      (some 0) (some 1)).2.read 0 = sampleSecretHeap.read 0 ∧
    (JSONPatchSecretNoError.onHeap sampleEncode samplePatch sampleSecretHeap
      (some 0) (some 1)).2.read 1 = sampleSecretHeap.read 1 ∧
    ((JSONPatchSecretNoError.onHeap sampleEncode samplePatch sampleSecretHeap
      (some 0) (some 1)).2.dataOf 3).lookup "b" = some "OLD" ∧
    ((JSONPatchSecretNoError.onHeap sampleEncode samplePatch sampleSecretHeap
      (some 0) (some 1)).2.dataOf 2).lookup "b" = some "MODIFIED" ∧
    (JSONPatchSecretNoError.onHeap sampleEncode samplePatch aliasedSecretHeap
      (some 0) (some 0)).2.read 0 = aliasedSecretHeap.read 0 := by
  have h0 : sampleSecretHeap.allocated 0 = true := by decide
  have h1 : sampleSecretHeap.allocated 1 = true := by decide
  have ha : aliasedSecretHeap.allocated 0 = true := by decide
  have h := (C14_callers_objects_unchanged_in_memory (μ := Unit) (σ := Unit)).1
    sampleEncode samplePatch sampleSecretHeap (some 0) (some 1)
  have h' := (C14_callers_objects_unchanged_in_memory (μ := Unit) (σ := Unit)).1
    sampleEncode samplePatch aliasedSecretHeap (some 0) (some 0)
  exact ⟨h0, h1, h.2.2.1 0 h0, h.2.2.1 1 h1, by decide, by decide, h'.2.2.1 0 ha⟩

/-- C15. Every string `JSONPatchNoError` returns on a failure path (nil original, nil
modified, encoding failure on either side, patch-computation failure) begins with one of the
five fixed diagnostics, and therefore differs from the empty-patch output `{}` and does not
begin with an opening brace. -/
theorem C15_failures_begin_with_a_fixed_diagnostic (Encode : K → Except String Bytes)
    (CreateMergePatch : Bytes → Bytes → Except String Bytes) (original modified : Option K)
    (hfail : JSONPatchNoError.fails Encode CreateMergePatch original modified = true) :
    (beginsWith "original object is nil"
        (JSONPatchNoError Encode CreateMergePatch original modified) ∨
      beginsWith "modified object is nil"
        (JSONPatchNoError Encode CreateMergePatch original modified) ∨
      beginsWith "unable to decode original to JSON: "
        (JSONPatchNoError Encode CreateMergePatch original modified) ∨
      beginsWith "unable to decode modified to JSON: "
        (JSONPatchNoError Encode CreateMergePatch original modified) ∨
      beginsWith "unable to create JSON patch: "
        (JSONPatchNoError Encode CreateMergePatch original modified)) ∧
    JSONPatchNoError Encode CreateMergePatch original modified ≠ "\x7b\x7d" ∧
    ¬ beginsWith "\x7b" (JSONPatchNoError Encode CreateMergePatch original modified) := by
  have key : ∀ r : String,
      (beginsWith "original object is nil" r ∨ beginsWith "modified object is nil" r ∨
        beginsWith "unable to decode original to JSON: " r ∨
        beginsWith "unable to decode modified to JSON: " r ∨
        beginsWith "unable to create JSON patch: " r) →
      r ≠ "\x7b\x7d" ∧ ¬ beginsWith "\x7b" r := by
    intro r h
    have hb : ¬ beginsWith "\x7b" r := by
      intro hbrace
      have hhead := head?_eq_of_beginsWith hbrace (by decide)
      rcases h with h | h | h | h | h <;>
      · rw [head?_eq_of_beginsWith h (by decide)] at hhead
        revert hhead
        decide
    refine ⟨?_, hb⟩
    intro hr
    apply hb
    rw [hr]
    decide
  have main : beginsWith "original object is nil"
        (JSONPatchNoError Encode CreateMergePatch original modified) ∨
      beginsWith "modified object is nil"
        (JSONPatchNoError Encode CreateMergePatch original modified) ∨
      beginsWith "unable to decode original to JSON: "
        (JSONPatchNoError Encode CreateMergePatch original modified) ∨
      beginsWith "unable to decode modified to JSON: "
        (JSONPatchNoError Encode CreateMergePatch original modified) ∨
      beginsWith "unable to create JSON patch: "
        (JSONPatchNoError Encode CreateMergePatch original modified) := by
    cases original with
    | none => exact Or.inl (beginsWith_refl _)
    | some o =>
      cases modified with
      | none => exact Or.inr (Or.inl (beginsWith_refl _))
      | some m =>
        unfold JSONPatchNoError.fails at hfail
        unfold JSONPatchNoError
        dsimp only at hfail ⊢
        cases ho : Encode o with
        | error e =>
          simp only [ho]
          exact Or.inr (Or.inr (Or.inl (beginsWith_append _ e)))
        | ok a =>
          cases hm : Encode m with
          | error e =>
            simp only [ho, hm]
            exact Or.inr (Or.inr (Or.inr (Or.inl (beginsWith_append _ e))))
          | ok b =>
            cases hp : CreateMergePatch a b with
            | error e =>
              simp only [ho, hm, hp]
              exact Or.inr (Or.inr (Or.inr (Or.inr (beginsWith_append _ e))))
            | ok p =>
              simp [ho, hm, hp] at hfail
  exact ⟨main, key _ main⟩

/-- C15 (witness): a patch engine failing with cause `boom`. -/
theorem C15_failures_begin_with_a_fixed_diagnostic_witness :
    JSONPatchNoError (sampleEncode : Unit → Except String Bytes) (failingPatch "boom")
      (some ()) (some ()) ≠ "\x7b\x7d" :=
  (C15_failures_begin_with_a_fixed_diagnostic sampleEncode (failingPatch "boom")
    (some ()) (some ()) rfl).2.1

/-- C16. Noninterference of `JSONPatchSecretNoError` in the secret bytes: two pairs of
non-nil secrets that agree on every field other than the Data values, have the same Data key
sets (original with original, modified with modified), and agree for every key common to
original and modified on whether the two values are equal, give the same returned string. -/
theorem C16_noninterference_in_secret_bytes (Encode : Secret μ → Except String Bytes)
    (CreateMergePatch : Bytes → Bytes → Except String Bytes) (o₁ m₁ o₂ m₂ : Secret μ)
    (ho : o₁.ObjectMeta = o₂.ObjectMeta ∧ o₁.StringData = o₂.StringData ∧
      o₁.Type_ = o₂.Type_)
    (hm : m₁.ObjectMeta = m₂.ObjectMeta ∧ m₁.StringData = m₂.StringData ∧
      m₁.Type_ = m₂.Type_)
    (hoKeys : o₁.Data.keys = o₂.Data.keys) (hmKeys : m₁.Data.keys = m₂.Data.keys)
    (hpat : ∀ k, k ∈ o₁.Data → k ∈ m₁.Data →
      (o₁.Data.lookup k = m₁.Data.lookup k ↔ o₂.Data.lookup k = m₂.Data.lookup k)) :
    JSONPatchSecretNoError Encode CreateMergePatch (some o₁) (some m₁)
      = JSONPatchSecretNoError Encode CreateMergePatch (some o₂) (some m₂) := by
  apply JSONPatchSecretNoError.eq_of_safe_copies
  apply JSONPatchSecretNoError.safe_copies_congr o₁ m₁ o₂ m₂
    ho.1 ho.2.1 ho.2.2 hm.1 hm.2.1 hm.2.2 ?_ ?_ hpat
  · intro k
    rw [← Finmap.mem_keys, ← Finmap.mem_keys, hoKeys]
  · intro k
    rw [← Finmap.mem_keys, ← Finmap.mem_keys, hmKeys]

/-- C16 (witness): `x` changed to `y` against `alpha` changed to `beta`, with an encoder
and a patch engine that print what they are given. -/
theorem C16_noninterference_in_secret_bytes_witness :
    JSONPatchSecretNoError printingEncode printingPatch
        (some (sampleSecret (Finmap.singleton "password" "x")))
        (some (sampleSecret (Finmap.singleton "password" "y")))
      = JSONPatchSecretNoError printingEncode printingPatch
        (some (sampleSecret (Finmap.singleton "password" "alpha")))
        (some (sampleSecret (Finmap.singleton "password" "beta"))) := by
  refine C16_noninterference_in_secret_bytes printingEncode printingPatch
    (sampleSecret (Finmap.singleton "password" "x"))
    (sampleSecret (Finmap.singleton "password" "y"))
    (sampleSecret (Finmap.singleton "password" "alpha"))
    (sampleSecret (Finmap.singleton "password" "beta"))
    ⟨rfl, rfl, rfl⟩ ⟨rfl, rfl, rfl⟩ (by decide) (by decide) ?_
  intro k hk _
  have hk' : k = "password" := (Finmap.mem_singleton k "password" "x").mp hk
  subst hk'
  decide

/-- C17. Redaction introduces no spurious difference on identical inputs: for every non-nil
secret `X` the two safe copies built from `(X, X)` are equal, every Data value being `OLD`
on both sides; for every non-nil route `R` the two safe copies built from `(R, R)` are equal,
with TLS absent on both or the TLS key `TLS_KEY_MASKED` on both. -/
theorem C17_identical_inputs_give_identical_safe_copies :
    (∀ X : Secret μ,
      (JSONPatchSecretNoError.vars X X).safeOriginal
        = (JSONPatchSecretNoError.vars X X).safeModified ∧
      (∀ k v, (JSONPatchSecretNoError.vars X X).safeOriginal.Data.lookup k = some v →
        v = "OLD") ∧
      (∀ k v, (JSONPatchSecretNoError.vars X X).safeModified.Data.lookup k = some v →
        v = "OLD")) ∧
    (∀ R : Route μ σ,
      (JSONPatchRouteNoError.vars R R).safeOriginal
        = (JSONPatchRouteNoError.vars R R).safeModified ∧
      (((JSONPatchRouteNoError.vars R R).safeOriginal.Spec.TLS = none ∧
          (JSONPatchRouteNoError.vars R R).safeModified.Spec.TLS = none) ∨
        ((JSONPatchRouteNoError.vars R R).safeOriginal.tlsKey = some "TLS_KEY_MASKED" ∧
          (JSONPatchRouteNoError.vars R R).safeModified.tlsKey = some "TLS_KEY_MASKED"))) := by
  constructor
  · intro X
    have heq : (JSONPatchSecretNoError.vars X X).safeOriginal
        = (JSONPatchSecretNoError.vars X X).safeModified := by
      obtain ⟨DO, DM, h, hDO, hDM⟩ := JSONPatchSecretNoError.vars_eq X X
      have hD : DO = DM := by
        apply Finmap.ext_lookup
        intro k
        rw [hDO k, hDM k]
        by_cases hk : k ∈ X.Data
        · obtain ⟨a, ha⟩ := Finmap.mem_iff.mp hk
          rw [if_pos hk, if_pos hk, modifiedToken_of_lookup ha ha, if_pos rfl]
        · rw [if_neg hk, if_neg hk]
      rw [h, hD]
    have hold : ∀ k v, (JSONPatchSecretNoError.vars X X).safeOriginal.Data.lookup k = some v →
        v = "OLD" := by
      intro k v h
      rw [JSONPatchSecretNoError.lookup_safeOriginal] at h
      split_ifs at h
      exact (Option.some.inj h).symm
    refine ⟨heq, hold, ?_⟩
    rw [← heq]
    exact hold
  · intro R
    rcases JSONPatchRouteNoError.vars_cases R R with ⟨hTLS, hO, hM⟩ | ⟨t, hTLS, hTLS', _⟩ |
      ⟨t, t', hTLS, hTLS', hO, hM⟩
    · rw [hO, hM]
      exact ⟨rfl, Or.inl ⟨hTLS, hTLS⟩⟩
    · rw [hTLS] at hTLS'
      exact absurd hTLS' (by simp)
    · have htt : t = t' := Option.some.inj (hTLS.symm.trans hTLS')
      subst htt
      rw [hO, hM, if_neg (fun h : t.Key ≠ t.Key => h rfl)]
      exact ⟨rfl, Or.inr ⟨rfl, rfl⟩⟩

/-- C17 (witness): the secret `sampleOriginal` diffed against itself. -/
theorem C17_identical_inputs_give_identical_safe_copies_witness :
    (JSONPatchSecretNoError.vars sampleOriginal sampleOriginal).safeOriginal.Data.lookup "a"
      = some "OLD" ∧ ("OLD" : String) = "OLD" := by
  have h : (JSONPatchSecretNoError.vars sampleOriginal sampleOriginal).safeOriginal.Data.lookup
      "a" = some "OLD" := by decide
  exact ⟨h, ((C17_identical_inputs_give_identical_safe_copies (μ := Unit) (σ := Unit)).1
    sampleOriginal).2.1 "a" "OLD" h⟩

/-- C18. Frame of the route policy: for every pair of non-nil routes, each safe copy built by
`JSONPatchRouteNoError` equals its input in every field except possibly `Spec.TLS.Key`
(metadata, the other fields of the spec, presence of the TLS sub-structure); in particular
the other fields of the TLS sub-structure (termination, certificate, CA certificate,
destination CA certificate, insecure-edge policy) reach the diff input unchanged. -/
theorem C18_route_safe_copies_differ_only_in_TLS_key (original modified : Route μ σ) :
    (JSONPatchRouteNoError.vars original modified).safeOriginal.withoutTLSKey
      = original.withoutTLSKey ∧
    (JSONPatchRouteNoError.vars original modified).safeModified.withoutTLSKey
      = modified.withoutTLSKey ∧
    (JSONPatchRouteNoError.vars original modified).safeOriginal.ObjectMeta
      = original.ObjectMeta ∧
    (JSONPatchRouteNoError.vars original modified).safeModified.ObjectMeta
      = modified.ObjectMeta ∧
    (JSONPatchRouteNoError.vars original modified).safeOriginal.Spec.other
      = original.Spec.other ∧
    (JSONPatchRouteNoError.vars original modified).safeModified.Spec.other
      = modified.Spec.other ∧
    (JSONPatchRouteNoError.vars original modified).safeOriginal.tlsOtherFields
      = original.tlsOtherFields ∧
    (JSONPatchRouteNoError.vars original modified).safeModified.tlsOtherFields
      = modified.tlsOtherFields := by
  obtain ⟨hO, hM⟩ := JSONPatchRouteNoError.withoutTLSKey_safe_copies original modified
  refine ⟨hO, hM, ?_, ?_, ?_, ?_, ?_, ?_⟩
  · have h := congrArg Route.ObjectMeta hO
    exact h
  · have h := congrArg Route.ObjectMeta hM
    exact h
  · exact congrArg (fun r => r.Spec.other) hO
  · exact congrArg (fun r => r.Spec.other) hM
  · rw [← Route.tlsOtherFields_withoutTLSKey, hO, Route.tlsOtherFields_withoutTLSKey]
  · rw [← Route.tlsOtherFields_withoutTLSKey, hM, Route.tlsOtherFields_withoutTLSKey]

/-- C19. Frame of the secret policy: for every pair of non-nil secrets, each safe copy
built by `JSONPatchSecretNoError` is its input with only the values stored in `Data`
replaced: metadata, type and the `StringData` map reach the diff input unchanged, and the
keys of `Data` are those of the input. -/
theorem C19_secret_safe_copies_differ_only_in_Data_values (original modified : Secret μ) :
    (∃ D : DataMap, D.keys = original.Data.keys ∧
      (JSONPatchSecretNoError.vars original modified).safeOriginal
        = { original with Data := D }) ∧
    (∃ D : DataMap, D.keys = modified.Data.keys ∧
      (JSONPatchSecretNoError.vars original modified).safeModified
        = { modified with Data := D }) ∧
    (JSONPatchSecretNoError.vars original modified).safeOriginal.ObjectMeta
      = original.ObjectMeta ∧
    (JSONPatchSecretNoError.vars original modified).safeOriginal.StringData
      = original.StringData ∧
    (JSONPatchSecretNoError.vars original modified).safeOriginal.Type_ = original.Type_ ∧
    (JSONPatchSecretNoError.vars original modified).safeModified.ObjectMeta
      = modified.ObjectMeta ∧
    (JSONPatchSecretNoError.vars original modified).safeModified.StringData
      = modified.StringData ∧
    (JSONPatchSecretNoError.vars original modified).safeModified.Type_ = modified.Type_ := by
  have hkO := JSONPatchSecretNoError.keys_safeOriginal original modified
  have hkM := JSONPatchSecretNoError.keys_safeModified original modified
  obtain ⟨DO, DM, h, _, _⟩ := JSONPatchSecretNoError.vars_eq original modified
  rw [h] at hkO hkM ⊢
  exact ⟨⟨DO, hkO, rfl⟩, ⟨DM, hkM, rfl⟩, rfl, rfl, rfl, rfl, rfl, rfl⟩

end Claims

end resourceapply
